import Mathlib

/-!
# dockerclient: image references and container lifecycle (`image.go`)

A shallow embedding of `image.go`.  Go strings are modelled as Lean strings
(sequences of characters, i.e. well-formed UTF-8 text); a Go `error` value is
modelled by its message, `nil` by `none`.
-/

namespace DockerClient

/-! ## The `strings` functions used by `image.go` -/

/-- Go `strings.HasPrefix` on character lists. -/
def hasPrefixL : List Char → List Char → Bool
  | _, [] => true
  | [], _ :: _ => false
  | c :: cs, p :: ps => c == p && hasPrefixL cs ps

/-- Go `strings.Contains` on character lists: some suffix of `s` starts with `sub`. -/
def containsL : List Char → List Char → Bool
  | [], sub => hasPrefixL [] sub
  | c :: cs, sub => hasPrefixL (c :: cs) sub || containsL cs sub

/-- Go `strings.Index` on character lists, counting from `i`: the position of the
first occurrence of `sub`, or `-1` when there is none. -/
def indexL : List Char → List Char → Nat → Int
  | [], sub, i => if hasPrefixL [] sub then (i : Int) else -1
  | c :: cs, sub, i => if hasPrefixL (c :: cs) sub then (i : Int) else indexL cs sub (i + 1)

/-- Go `strings.Split` for a non-empty separator, on character lists: `skip` counts the
characters of a separator occurrence still to be dropped, `acc` holds the current
piece reversed. -/
def splitL (sep : List Char) : List Char → Nat → List Char → List (List Char)
  | [], _, acc => [acc.reverse]
  | _ :: cs, skip + 1, acc => splitL sep cs skip acc
  | c :: cs, 0, acc =>
    if hasPrefixL (c :: cs) sep then acc.reverse :: splitL sep cs (sep.length - 1) []
    else splitL sep cs 0 (c :: acc)

/-- Go `strings.HasSuffix`. -/
def HasSuffix (s suffix : String) : Bool :=
  hasPrefixL s.data.reverse suffix.data.reverse

/-- Go `strings.HasPrefix`. -/
def HasPrefix (s pre : String) : Bool :=
  hasPrefixL s.data pre.data

/-- Go `strings.Contains`. -/
def Contains (s substr : String) : Bool :=
  containsL s.data substr.data

/-- Go `strings.Index`. -/
def Index (s substr : String) : Int :=
  indexL s.data substr.data 0

/-- Go `strings.Split`: with an empty separator the string is cut into its characters. -/
def Split (s sep : String) : List String :=
  if sep.data = [] then s.data.map (fun c => String.mk [c])
  else (splitL sep.data s.data 0 []).map String.mk

/-! ## Image references -/

/-- The Go struct `imageName`. -/
structure imageName where
  Name : String
  DockerRegistry : String
deriving DecidableEq, Repr

/-- The method `imageName.GetFullImageName`: the receiver is a copy, so the
assignment to `n.DockerRegistry` is local. -/
def imageName.GetFullImageName (n : imageName) : String :=
  let DockerRegistry :=
    if n.DockerRegistry ≠ "" then
      if !HasSuffix n.DockerRegistry "/" then n.DockerRegistry ++ "/" else n.DockerRegistry
    else n.DockerRegistry
  DockerRegistry ++ n.Name

/-- The function `GetImageName`; `strings.Split(imageName, ":")[0]` always exists. -/
def GetImageName (imageName : String) : String :=
  if Index imageName ":" > 0 then (Split imageName ":").getD 0 ""
  else imageName

/-- The function `GetImageTag`; `strings.Split(imageName, ":")[1]` exists whenever the
guard holds (`Split_length_of_Index_pos`), so the default is never taken. -/
def GetImageTag (imageName : String) : String :=
  if Index imageName ":" > 0 then (Split imageName ":").getD 1 ""
  else imageName

/-! ## The container engine as seen through `client.Client`

The engine is a state machine over a state type `σ`: every client call maps the state
before the call to its results and the state after it.  Each function of `image.go`
returns, next to its Go results, the engine state it leaves and the events it caused, in
order. -/

/-- A Go `error`, represented by its message. -/
abbrev error := String

/-- The part of `container.Config` that `image.go` reads. -/
structure Config where
  Image : String
  Cmd : List String
deriving DecidableEq, Repr

/-- A stand-in for `container.HostConfig`, which `image.go` only passes on. -/
structure HostConfig where
  Binds : List String
deriving DecidableEq, Repr

/-- The response struct `container.ContainerCreateCreatedBody`. -/
structure ContainerCreateCreatedBody where
  ID : String
  Warnings : List String
deriving DecidableEq, Repr

/-- The calls `image.go` makes on its collaborators. -/
inductive Call where
  | ContainerCreate (config : Config) (hostConfig : HostConfig) (containerName : String)
  | ImagePull (ref : String)
  | ReadAll
  | Close
  | ContainerRemove (containerID : String) (force : Bool)
  | ContainerInspect (containerID : String)
  | ContainerStart (containerID : String)
  | Sleep (seconds : Nat)
deriving DecidableEq, Repr

/-- A call together with the error it returned (`none` for `nil`). -/
structure Event where
  call : Call
  err : Option error
deriving DecidableEq, Repr

/-- Is the event an engine create call? -/
def Event.isCreate : Event → Bool
  | ⟨.ContainerCreate _ _ _, _⟩ => true
  | _ => false

/-- Is the event a pull of an image? -/
def Event.isPull : Event → Bool
  | ⟨.ImagePull _, _⟩ => true
  | _ => false

/-- Is the event a removal of a container? -/
def Event.isRemove : Event → Bool
  | ⟨.ContainerRemove _ _, _⟩ => true
  | _ => false

/-- Is the event a status query? -/
def Event.isInspect : Event → Bool
  | ⟨.ContainerInspect _, _⟩ => true
  | _ => false

/-- The methods of `client.Client` (and of the response stream of a pull) that `image.go`
uses, each as a transition of the engine state; `Sleep` is what the engine does while
the caller sleeps. -/
structure Client (σ : Type) where
  ContainerCreate : Config → HostConfig → String → σ →
    (ContainerCreateCreatedBody × Option error) × σ
  ImagePull : String → σ → Option error × σ
  ReadAll : σ → (String × Option error) × σ
  Close : σ → σ
  ContainerRemove : String → Bool → σ → Option error × σ
  ContainerInspect : String → σ → (String × Option error) × σ
  ContainerStart : String → σ → Option error × σ
  Sleep : Nat → σ → σ

section Lifecycle

variable {σ : Type}

/-- The method `PullImage`; the deferred `reader.Close()` runs when the function returns
after a successful read. -/
def PullImage (d : Client σ) (repositoryName : String) (s : σ) :
    Option error × σ × List Event :=
  match d.ImagePull repositoryName s with
  | (some err, s1) => (some err, s1, [⟨.ImagePull repositoryName, some err⟩])
  | (none, s1) =>
    match d.ReadAll s1 with
    | ((_, some err), s2) =>
      (some err, s2, [⟨.ImagePull repositoryName, none⟩, ⟨.ReadAll, some err⟩])
    | ((_, none), s2) =>
      (none, d.Close s2, [⟨.ImagePull repositoryName, none⟩, ⟨.ReadAll, none⟩, ⟨.Close, none⟩])

/-- The method `RemoveContainer`. -/
def RemoveContainer (d : Client σ) (containerId : String) (s : σ) :
    Option error × σ × List Event :=
  match d.ContainerRemove containerId true s with
  | (some err, s1) => (some err, s1, [⟨.ContainerRemove containerId true, some err⟩])
  | (none, s1) => (none, s1, [⟨.ContainerRemove containerId true, none⟩])

/-- The method `StartContainer`. -/
def StartContainer (d : Client σ) (containerId : String) (s : σ) :
    Option error × σ × List Event :=
  match d.ContainerStart containerId s with
  | (some err, s1) => (some err, s1, [⟨.ContainerStart containerId, some err⟩])
  | (none, s1) => (none, s1, [⟨.ContainerStart containerId, none⟩])

/-- The method `StatusContainer`. -/
def StatusContainer (d : Client σ) (containerId : String) (s : σ) :
    (String × Option error) × σ × List Event :=
  match d.ContainerInspect containerId s with
  | ((_, some err), s1) => (("", some err), s1, [⟨.ContainerInspect containerId, some err⟩])
  | ((status, none), s1) => ((status, none), s1, [⟨.ContainerInspect containerId, none⟩])

/-- The method `CreateContainer`.  The Go function calls itself, so the model takes
`fuel`, the number of nested calls allowed; `none` means the fuel ran out.  When the
removal of the conflicting name fails, the Go code only logs and leaves the `if`, so
control reaches the final `return res.ID, nil`. -/
def CreateContainer (d : Client σ) :
    Nat → String → Config → HostConfig → σ → Option ((String × Option error) × σ × List Event)
  | 0, _, _, _, _ => none
  | fuel + 1, containerName, conf, hostConf, s =>
    match d.ContainerCreate conf hostConf containerName s with
    | ((res, some err), s1) =>
      let ev : Event := ⟨.ContainerCreate conf hostConf containerName, some err⟩
      if Contains err "No such image" then
        match PullImage d conf.Image s1 with
        | (some err, s2, t) => some (("", some err), s2, ev :: t)
        | (none, s2, t) =>
          match CreateContainer d fuel containerName conf hostConf s2 with
          | none => none
          | some ((_, some err), s3, t') => some (("", some err), s3, ev :: (t ++ t'))
          | some ((id, none), s3, t') => some ((id, none), s3, ev :: (t ++ t'))
      else if Contains err "is already in use by container" then
        match RemoveContainer d containerName s1 with
        | (some _, s2, t) => some ((res.ID, none), s2, ev :: t)
        | (none, s2, t) =>
          match CreateContainer d fuel containerName conf hostConf s2 with
          | none => none
          | some ((_, some err), s3, t') => some (("", some err), s3, ev :: (t ++ t'))
          | some ((id, none), s3, t') => some ((id, none), s3, ev :: (t ++ t'))
      else some (("", some err), s1, [ev])
    | ((res, none), s1) =>
      some ((res.ID, none), s1, [⟨.ContainerCreate conf hostConf containerName, none⟩])

/-- The method `RunContainer`.  The local `config` receives the full image name and is
not used afterwards: the create call gets the caller's `conf`. -/
def RunContainer (d : Client σ) (fuel : Nat) (name : imageName) (containerName : String)
    (conf : Config) (hostConf : HostConfig) (s : σ) :
    Option ((String × Option error) × σ × List Event) :=
  let config : Config := { Image := "", Cmd := [] }
  let config : Config := { config with Image := name.GetFullImageName }
  match CreateContainer d fuel containerName conf hostConf s with
  | none => none
  | some ((id, some err), s1, t) => some ((id, some err), s1, t)
  | some ((id, none), s1, t) =>
    match StartContainer d id s1 with
    | (some err, s2, t') => some (("", some err), s2, t ++ t')
    | (none, s2, t') => some ((id, none), s2, t ++ t')

/-- The loop of the method `RemoveContainers`. -/
def RemoveContainers (d : Client σ) : List String → σ → Option error × σ × List Event
  | [], s => (none, s, [])
  | v :: rest, s =>
    match d.ContainerRemove v true s with
    | (some err, s1) => (some err, s1, [⟨.ContainerRemove v true, some err⟩])
    | (none, s1) =>
      match RemoveContainers d rest s1 with
      | (r, s2, t) => (r, s2, ⟨.ContainerRemove v true, none⟩ :: t)

/-- The engine state after forced removals of the given handles, one after the other in
list order, whatever their results: the engine's own run, written without
`RemoveContainers`. -/
def afterRemovals (d : Client σ) : List String → σ → σ
  | [], s => s
  | v :: rest, s => afterRemovals d rest (d.ContainerRemove v true s).2

/-- What the engine answers to the forced removal of handle `v` at position `i` of the
list, asked in the state that the removals of the handles before `i` left. -/
def removalAt (d : Client σ) (containerIds : List String) (s : σ) (i : Nat) (v : String) :
    Option error × σ :=
  d.ContainerRemove v true (afterRemovals d (containerIds.take i) s)

/-! ### `WaitContainerDone`

The method starts one worker goroutine and then receives once from the unbuffered
channel `done` and once from the unbuffered channel `cErr`.  A send on an unbuffered
channel completes only when the other side receives, so the worker's sends succeed
exactly as long as the caller has not yet taken its two values; a later send blocks the
worker for good.  The worker's loop has no `break` or `return`. -/

/-- Where the calling goroutine stands. -/
inductive Caller where
  | recvDone
  | recvErr
  | returned (err : Option error)
deriving DecidableEq, Repr

/-- The worker's `done <- true`: it completes when the caller is at `<-done`. -/
def sendDone : Caller → Option Caller
  | .recvDone => some .recvErr
  | _ => none

/-- The worker's `cErr <- v`: it completes when the caller is at `err := <-cErr`, and
the caller then returns `v`. -/
def sendErr (v : Option error) : Caller → Option Caller
  | .recvErr => some (.returned v)
  | _ => none

/-- The two sends `done <- true; cErr <- v` in a row: the caller's new position, and
whether the worker got past both sends. -/
def signal (v : Option error) (c : Caller) : Caller × Bool :=
  match sendDone c with
  | none => (c, false)
  | some c1 =>
    match sendErr v c1 with
    | none => (c1, false)
    | some c2 => (c2, true)

/-- How the worker goroutine stands when the model stops following it. -/
inductive Worker where
  | blocked
  | running
deriving DecidableEq, Repr

/-- A configuration of `WaitContainerDone`: the engine state, the caller's position, the
events caused before the caller returned and those caused after it. -/
structure Wait (σ : Type) where
  eng : σ
  caller : Caller
  before : List Event
  after : List Event

/-- Record events of the worker, on the side of the caller's return they fall on. -/
def Wait.emit (w : Wait σ) (s : σ) (evs : List Event) : Wait σ :=
  match w.caller with
  | .returned _ => { w with eng := s, after := w.after ++ evs }
  | _ => { w with eng := s, before := w.before ++ evs }

/-- The `for` loop of the worker goroutine, `fuel` iterations of it, from the values of
its variables `status` and `err`. -/
def worker (EqualFold : String → String → Bool) (d : Client σ) (containerId : String) :
    Nat → String → Option error → Wait σ → Wait σ × Worker
  | 0, _, _, w => (w, .running)
  | fuel + 1, status, err, w =>
    let r1 : Caller × Bool :=
      match err with
      | some e => signal (some e) w.caller
      | none => (w.caller, true)
    if !r1.2 then ({ w with caller := r1.1 }, .blocked)
    else if EqualFold "done" status || EqualFold "exited" status then
      let r2 := signal none r1.1
      if !r2.2 then ({ w with caller := r2.1 }, .blocked)
      else worker EqualFold d containerId fuel status err { w with caller := r2.1 }
    else
      let w1 := ({ w with caller := r1.1 }).emit (d.Sleep 1 w.eng) [⟨.Sleep 1, none⟩]
      match StatusContainer d containerId w1.eng with
      | ((status', err'), s', evs) =>
        worker EqualFold d containerId fuel status' err' (w1.emit s' evs)

/-- The method `WaitContainerDone`, following the worker for `fuel` iterations of its
loop.  The method has returned `err` when the caller stands at `returned err`.
`EqualFold` is Go's `strings.EqualFold`. -/
def WaitContainerDone (EqualFold : String → String → Bool) (d : Client σ) (fuel : Nat)
    (containerId : String) (s : σ) : Wait σ × Worker :=
  match StatusContainer d containerId s with
  | ((status, err), s1, evs) =>
    worker EqualFold d containerId fuel status err
      { eng := s1, caller := .recvDone, before := evs, after := [] }

/-- The engine state just before the status query number `n` (from 0) of a polling
loop started in state `s`: between two queries the caller sleeps one second. -/
def pollState (d : Client σ) (containerId : String) : Nat → σ → σ
  | 0, s => s
  | n + 1, s => pollState d containerId n (d.Sleep 1 (StatusContainer d containerId s).2.1)

/-- The status and error that the status query number `n` (from 0) of a polling loop
started in state `s` returns. -/
def pollResult (d : Client σ) (containerId : String) (n : Nat) (s : σ) :
    String × Option error :=
  (StatusContainer d containerId (pollState d containerId n s)).1

/-- The engine states that one run of `CreateContainer` for the given arguments can pass
through: a run goes on after a create that failed, after a pull of `conf.Image` that
succeeded and after a removal of the name that succeeded. -/
inductive Reach (d : Client σ) (containerName : String) (conf : Config)
    (hostConf : HostConfig) : σ → σ → Prop where
  | refl (s : σ) : Reach d containerName conf hostConf s s
  | create {s s1 : σ} : Reach d containerName conf hostConf s s1 →
      (d.ContainerCreate conf hostConf containerName s1).1.2 ≠ none →
      Reach d containerName conf hostConf s (d.ContainerCreate conf hostConf containerName s1).2
  | pull {s s1 : σ} : Reach d containerName conf hostConf s s1 →
      (PullImage d conf.Image s1).1 = none →
      Reach d containerName conf hostConf s (PullImage d conf.Image s1).2.1
  | remove {s s1 : σ} : Reach d containerName conf hostConf s s1 →
      (RemoveContainer d containerName s1).1 = none →
      Reach d containerName conf hostConf s (RemoveContainer d containerName s1).2.1

/-- The outcome of `CreateContainer` from state `s`: with at least `n` units of fuel it
returns a result whose events hold at most `c` creates, `p` pulls and `r` removals. -/
def Settles (d : Client σ) (name : String) (conf : Config) (hostConf : HostConfig)
    (s : σ) (n c p r : Nat) : Prop :=
  ∃ out, (∀ fuel, n ≤ fuel → CreateContainer d fuel name conf hostConf s = some out) ∧
    out.2.2.countP Event.isCreate ≤ c ∧ out.2.2.countP Event.isPull ≤ p ∧
    out.2.2.countP Event.isRemove ≤ r

end Lifecycle

/-! ## The registry tag check -/

/-- A JSON document as `encoding/json` reads it. -/
inductive JSON where
  | null
  | bool (b : Bool)
  | number (literal : String)
  | string (s : String)
  | array (xs : List JSON)
  | object (kvs : List (String × JSON))

/-- The dynamic value held by a Go `interface{}`, as far as `image.go` can meet one:
`slice` is a `[]interface{}`, `map` a `map[string]interface{}` (their elements are kept
as documents), `stringSlice` a `[]string`. -/
inductive Value where
  | nil
  | bool (b : Bool)
  | float64 (literal : String)
  | string (s : String)
  | slice (xs : List JSON)
  | map (kvs : List (String × JSON))
  | stringSlice (xs : List String)

/-- What `json.Unmarshal` stores in an `interface{}` for a document: `nil`, `bool`,
`float64`, `string`, `[]interface{}` or `map[string]interface{}`. -/
def JSON.store : JSON → Value
  | .null => .nil
  | .bool b => .bool b
  | .number n => .float64 n
  | .string s => .string s
  | .array xs => .slice xs
  | .object kvs => .map kvs

/-- The type assertion `v.([]string)` in its one-result form: `none` is the run-time
panic raised when the dynamic type of `v` is not `[]string`. -/
def assertStringSlice : Value → Option (List String)
  | .stringSlice xs => some xs
  | _ => none

/-- The map index `results[key]` on the entries of a decoded object, where a later
entry for a key replaces an earlier one: the zero value `nil` when the key is absent. -/
def mapIndex (results : List (String × JSON)) (key : String) : Value :=
  match results.reverse.lookup key with
  | none => .nil
  | some j => j.store

/-- The collaborators of the registry check: `http.NewRequest`, `http.DefaultClient.Do`
(giving the response body), `ioutil.ReadAll` on that body, and the JSON reader behind
`json.Unmarshal`. -/
structure Http where
  NewRequest : String → String → Option error
  Do : String → String → Except error String
  ReadAll : String → Except error String
  Parse : String → Except error JSON

/-- The call `json.Unmarshal(body, &results)` for the empty `map[string]interface{}`
`results`: the entries of a JSON object, nothing for `null`, an error otherwise. -/
def Unmarshal (h : Http) (body : String) : Except error (List (String × JSON)) :=
  match h.Parse body with
  | .error err => .error err
  | .ok (.object kvs) => .ok kvs
  | .ok .null => .ok []
  | .ok (.bool _) =>
    .error "json: cannot unmarshal bool into Go value of type map[string]interface \x7b\x7d"
  | .ok (.number _) =>
    .error "json: cannot unmarshal number into Go value of type map[string]interface \x7b\x7d"
  | .ok (.string _) =>
    .error "json: cannot unmarshal string into Go value of type map[string]interface \x7b\x7d"
  | .ok (.array _) =>
    .error "json: cannot unmarshal array into Go value of type map[string]interface \x7b\x7d"

/-- The `for _, tag := range tags` loop of `CheckImagesExistInDockerRegistry`. -/
def tagLoop (EqualFold : String → String → Bool) (want : String) : List String → Bool
  | [] => false
  | tag :: rest => if EqualFold tag want then true else tagLoop EqualFold want rest

/-- The method `CheckImagesExistInDockerRegistry`: `Except.ok` carries the two Go
results, `Except.error` a run-time panic.  `EqualFold` is Go's `strings.EqualFold`. -/
def CheckImagesExistInDockerRegistry (EqualFold : String → String → Bool) (h : Http)
    (name : imageName) : Except String (Bool × Option error) :=
  if name.DockerRegistry = "" then .ok (false, some "Docker registry cannot empty")
  else
    let url :=
      if HasSuffix name.DockerRegistry "/" then
        "http://" ++ name.DockerRegistry ++ "2/" ++ GetImageName name.Name ++ "/tags/list"
      else
        "http://" ++ name.DockerRegistry ++ "/2/" ++ GetImageName name.Name ++ "/tags/list"
    match h.NewRequest "GET" url with
    | some err => .ok (false, some err)
    | none =>
      match h.Do "GET" url with
      | .error err => .ok (false, some err)
      | .ok res =>
        match h.ReadAll res with
        | .error err => .ok (false, some err)
        | .ok body =>
          match Unmarshal h body with
          | .error err => .ok (false, some err)
          | .ok results =>
            match assertStringSlice (mapIndex results "tags") with
            | none => .error "interface conversion: interface \x7b\x7d is not []string"
            | some tags => .ok (tagLoop EqualFold (GetImageTag name.Name) tags, none)

/-! ## Concrete collaborators, for evaluating the model -/

/-- Case-insensitive equality of ASCII text; on ASCII strings it agrees with Go's
`strings.EqualFold`. -/
def EqualFoldASCII (s t : String) : Bool :=
  s.data.map Char.toLower == t.data.map Char.toLower

/-- The state of a small engine: the local images, the container names in use, the
images a pull can fetch, the containers that refuse removal, and the answers the coming
status queries will get. -/
structure Docker where
  images : List String
  names : List String
  remote : List String
  busy : List String
  statuses : List (String × Option error)
deriving DecidableEq, Repr

/-- A small engine with the error messages of the Docker daemon. -/
def docker : Client Docker where
  ContainerCreate conf _ name s :=
    if conf.Image ∈ s.images then
      if name ∈ s.names then
        ((⟨"", []⟩, some ("Conflict. The container name \"/" ++ name ++
          "\" is already in use by container")), s)
      else ((⟨"id-" ++ name, []⟩, none), { s with names := name :: s.names })
    else ((⟨"", []⟩, some ("No such image: " ++ conf.Image)), s)
  ImagePull ref s :=
    if ref ∈ s.remote then (none, { s with images := ref :: s.images })
    else (some ("pull access denied for " ++ ref), s)
  ReadAll s := (("", none), s)
  Close s := s
  ContainerRemove id _ s :=
    if id ∈ s.busy then (some ("cannot remove container " ++ id), s)
    else (none, { s with names := s.names.filter (fun n => n != id) })
  ContainerInspect _ s :=
    match s.statuses with
    | [] => (("", some "No such container"), s)
    | x :: xs => (x, { s with statuses := xs })
  ContainerStart _ s := (none, s)
  Sleep _ s := s

/-- A registry that answers every tag query with the same body. -/
def registry (body : String) (doc : JSON) : Http where
  NewRequest _ _ := none
  Do _ _ := .ok body
  ReadAll b := .ok b
  Parse _ := .ok doc

/-! ## Facts about the string functions -/

theorem hasPrefixL_singleton (c x : Char) (cs : List Char) :
    hasPrefixL (c :: cs) [x] = (c == x) := by
  simp [hasPrefixL]

theorem hasPrefixL_nil_singleton (x : Char) : hasPrefixL [] [x] = false := rfl

theorem indexL_not_mem (x : Char) (s : List Char) (i : Nat) (h : x ∉ s) :
    indexL s [x] i = -1 := by
  induction s generalizing i with
  | nil => simp [indexL, hasPrefixL]
  | cons c cs ih =>
    have hc : c ≠ x := fun e => h (by simp [e])
    have hcs : x ∉ cs := fun e => h (by simp [e])
    simp [indexL, hasPrefixL_singleton, hc, ih (i + 1) hcs]

theorem indexL_first (x : Char) (a b : List Char) (i : Nat) (h : x ∉ a) :
    indexL (a ++ x :: b) [x] i = ((i + a.length : Nat) : Int) := by
  induction a generalizing i with
  | nil => simp [indexL, hasPrefixL_singleton]
  | cons c cs ih =>
    have hc : c ≠ x := fun e => h (by simp [e])
    have hcs : x ∉ cs := fun e => h (by simp [e])
    have step : indexL (c :: (cs ++ x :: b)) [x] i = indexL (cs ++ x :: b) [x] (i + 1) := by
      simp [indexL, hasPrefixL_singleton, hc]
    rw [List.cons_append, step, ih (i + 1) hcs, List.length_cons]
    congr 1
    omega

theorem splitL_not_mem (x : Char) (s acc : List Char) (h : x ∉ s) :
    splitL [x] s 0 acc = [acc.reverse ++ s] := by
  induction s generalizing acc with
  | nil => simp [splitL]
  | cons c cs ih =>
    have hc : c ≠ x := fun e => h (by simp [e])
    have hcs : x ∉ cs := fun e => h (by simp [e])
    simp [splitL, hasPrefixL_singleton, hc, ih (c :: acc) hcs]

theorem splitL_first (x : Char) (a b acc : List Char) (h : x ∉ a) :
    splitL [x] (a ++ x :: b) 0 acc = (acc.reverse ++ a) :: splitL [x] b 0 [] := by
  induction a generalizing acc with
  | nil => simp [splitL, hasPrefixL_singleton]
  | cons c cs ih =>
    have hc : c ≠ x := fun e => h (by simp [e])
    have hcs : x ∉ cs := fun e => h (by simp [e])
    simp [splitL, hasPrefixL_singleton, hc, ih (c :: acc) hcs]

theorem splitL_ne_nil (sep s : List Char) (skip : Nat) (acc : List Char) :
    1 ≤ (splitL sep s skip acc).length := by
  induction s generalizing skip acc with
  | nil => simp [splitL]
  | cons c cs ih =>
    cases skip with
    | succ k => simpa [splitL] using ih k acc
    | zero =>
      simp only [splitL]
      split
      · simp
      · exact ih 0 (c :: acc)

theorem splitL_length_of_mem (x : Char) (s acc : List Char) (h : x ∈ s) :
    2 ≤ (splitL [x] s 0 acc).length := by
  induction s generalizing acc with
  | nil => simp at h
  | cons c cs ih =>
    by_cases hc : c = x
    · have := splitL_ne_nil [x] cs 0 []
      simp only [splitL, hasPrefixL_singleton, hc, beq_self_eq_true, if_true, List.length_cons,
        List.length_singleton]
      simpa using this
    · have hcs : x ∈ cs := by
        rcases List.mem_cons.1 h with e | e
        · exact absurd e.symm hc
        · exact e
      simpa [splitL, hasPrefixL_singleton, hc] using ih (c :: acc) hcs

/-- Whenever the guard of `GetImageName`/`GetImageTag` holds, `strings.Split` yields at
least two pieces, so neither index expression can be out of range. -/
theorem Split_length_of_Index_pos (s : String) (h : Index s ":" > 0) :
    2 ≤ (Split s ":").length := by
  have hmem : ':' ∈ s.data := by
    by_contra hn
    have := indexL_not_mem ':' s.data 0 hn
    have h2 : Index s ":" = -1 := this
    omega
  have hsep : (":" : String).data = [':'] := rfl
  simp only [Split, hsep, List.cons_ne_nil, if_false, List.length_map]
  exact splitL_length_of_mem ':' s.data [] hmem

theorem hasPrefixL_reverse_cons (c : Char) (l : List Char) (x : Char) (hl : l ≠ []) :
    hasPrefixL (c :: l).reverse [x] = hasPrefixL l.reverse [x] := by
  have hr : l.reverse ≠ [] := by simpa using hl
  rw [List.reverse_cons]
  cases h : l.reverse with
  | nil => exact absurd h hr
  | cons y ys => simp [hasPrefixL_singleton]

theorem containsL_cons (c : Char) (cs p : List Char) :
    containsL (c :: cs) p = (hasPrefixL (c :: cs) p || containsL cs p) := rfl

theorem containsL_cons_false (c : Char) (cs p : List Char)
    (h : containsL (c :: cs) p = false) :
    hasPrefixL (c :: cs) p = false ∧ containsL cs p = false := by
  simpa [containsL] using h

/-- No double slash appears in a concatenation when neither part has one and the
junction does not put two slashes side by side. -/
theorem containsL_slashes_append (a b : List Char)
    (ha : containsL a ['/', '/'] = false) (hb : containsL b ['/', '/'] = false)
    (hj : hasPrefixL a.reverse ['/'] = false ∨ hasPrefixL b ['/'] = false) :
    containsL (a ++ b) ['/', '/'] = false := by
  induction a with
  | nil => simpa using hb
  | cons c cs ih =>
    obtain ⟨hp, hcs⟩ := containsL_cons_false c cs _ ha
    cases cs with
    | nil =>
      have hj2 : (c == '/') = false ∨ hasPrefixL b ['/'] = false := by
        simpa [hasPrefixL_singleton] using hj
      have : hasPrefixL (c :: b) ['/', '/'] = false := by
        cases b with
        | nil => simp [hasPrefixL]
        | cons y ys =>
          rcases hj2 with h | h
          · simp [hasPrefixL, h]
          · have hy : (y == '/') = false := by simpa [hasPrefixL_singleton] using h
            simp [hasPrefixL, hy]
      simp [containsL, this, hb]
    | cons c2 r =>
      have hj2 : hasPrefixL (c2 :: r).reverse ['/'] = false ∨ hasPrefixL b ['/'] = false := by
        rcases hj with h | h
        · left
          rw [hasPrefixL_reverse_cons c (c2 :: r) '/' (by simp)] at h
          exact h
        · exact Or.inr h
      have h1 : hasPrefixL (c :: c2 :: (r ++ b)) ['/', '/'] = false := by
        simpa [hasPrefixL] using hp
      have h2 := ih hcs hj2
      simp only [List.cons_append] at h2 ⊢
      rw [containsL_cons, h1, h2]
      rfl

/-! ## Image references: full names, names and tags -/

/-- C7 (as stated, refuted): the full name `reg//img` built from the name `/img` and the
registry host `reg`, and the one built from the name `img` and the registry host `reg//`,
both contain a double slash. -/
theorem GetFullImageName_double_slash :
    Contains (imageName.GetFullImageName ⟨"/img", "reg"⟩) "//" = true ∧
    Contains (imageName.GetFullImageName ⟨"img", "reg//"⟩) "//" = true := by
  decide

/-- C7 (amended): `GetFullImageName` returns the name alone when the registry host is
empty; the host followed by the name when the host ends in a slash; the host, one slash
and the name otherwise.  When neither the host nor the name contains a double slash and
the name does not begin with a slash, the result contains no double slash. -/
theorem GetFullImageName_spec (n : imageName) :
    (n.DockerRegistry = "" → n.GetFullImageName = n.Name) ∧
    (n.DockerRegistry ≠ "" → HasSuffix n.DockerRegistry "/" = true →
      n.GetFullImageName = n.DockerRegistry ++ n.Name) ∧
    (n.DockerRegistry ≠ "" → HasSuffix n.DockerRegistry "/" = false →
      n.GetFullImageName = n.DockerRegistry ++ "/" ++ n.Name) ∧
    (Contains n.DockerRegistry "//" = false → Contains n.Name "//" = false →
      HasPrefix n.Name "/" = false → Contains n.GetFullImageName "//" = false) := by
  have hslash : ("/" : String).data = ['/'] := rfl
  have hdslash : ("//" : String).data = ['/', '/'] := rfl
  refine ⟨?_, ?_, ?_, ?_⟩
  · intro h
    simp [imageName.GetFullImageName, h]
  · intro h hs
    simp [imageName.GetFullImageName, h, hs]
  · intro h hs
    simp [imageName.GetFullImageName, h, hs]
  · intro hr hn hp
    simp only [Contains, hdslash] at hr hn ⊢
    simp only [HasPrefix, hslash] at hp
    by_cases h : n.DockerRegistry = ""
    · simpa [imageName.GetFullImageName, h] using hn
    · cases hs : HasSuffix n.DockerRegistry "/" with
      | true =>
        simp only [imageName.GetFullImageName, h, hs, ne_eq, not_false_eq_true, if_true,
          Bool.not_true, Bool.false_eq_true, if_false, String.data_append]
        exact containsL_slashes_append _ _ hr hn (Or.inr hp)
      | false =>
        simp only [imageName.GetFullImageName, h, hs, ne_eq, not_false_eq_true, if_true,
          Bool.not_false, String.data_append, hslash]
        have hs2 : hasPrefixL n.DockerRegistry.data.reverse ['/'] = false := by
          simpa [HasSuffix, hslash] using hs
        have h1 : containsL (n.DockerRegistry.data ++ ['/']) ['/', '/'] = false :=
          containsL_slashes_append _ _ hr (by decide) (Or.inl hs2)
        exact containsL_slashes_append _ _ h1 hn (Or.inr hp)

/-- C7 (amended), at the registry host `reg/` and the name `img`. -/
theorem GetFullImageName_spec_witness :
    imageName.GetFullImageName ⟨"img", "reg/"⟩ = "reg/" ++ "img" ∧
    Contains (imageName.GetFullImageName ⟨"img", "reg/"⟩) "//" = false :=
  ⟨(GetFullImageName_spec ⟨"img", "reg/"⟩).2.1 (by decide) (by decide),
   (GetFullImageName_spec ⟨"img", "reg/"⟩).2.2.2 (by decide) (by decide) (by decide)⟩

/-- C9: for an image name without a colon, `GetImageName` and `GetImageTag` both return
the name itself; for `a ++ ":" ++ b` with `a` non-empty and no colon in `a` or `b`,
`GetImageName` returns `a` and `GetImageTag` returns `b`. -/
theorem GetImageName_GetImageTag_spec (n : String) :
    (':' ∉ n.data → GetImageName n = n ∧ GetImageTag n = n) ∧
    (∀ a b : String, n = a ++ ":" ++ b → a ≠ "" → ':' ∉ a.data → ':' ∉ b.data →
      GetImageName n = a ∧ GetImageTag n = b) := by
  have hsep : (":" : String).data = [':'] := rfl
  constructor
  · intro h
    have hi : Index n ":" = -1 := indexL_not_mem ':' n.data 0 h
    simp [GetImageName, GetImageTag, hi]
  · intro a b hn ha hca hcb
    have hdata : n.data = a.data ++ ':' :: b.data := by
      rw [hn]
      simp [String.data_append, hsep]
    have hlen : 0 < a.data.length := by
      rcases a with ⟨l⟩
      cases l with
      | nil => exact absurd rfl ha
      | cons x xs => simp
    have hi : Index n ":" = ((0 + a.data.length : Nat) : Int) := by
      simp only [Index, hsep, hdata]
      exact indexL_first ':' a.data b.data 0 hca
    have hpos : Index n ":" > 0 := by
      rw [hi]
      omega
    have hsplit : Split n ":" = [a, b] := by
      simp only [Split, hsep, hdata, List.cons_ne_nil, if_false]
      rw [splitL_first ':' a.data b.data [] hca, splitL_not_mem ':' b.data [] hcb]
      simp
    simp [GetImageName, GetImageTag, hpos, hsplit]

/-- C9, at the names `busybox` and `busybox:latest`. -/
theorem GetImageName_GetImageTag_spec_witness :
    (GetImageName "busybox" = "busybox" ∧ GetImageTag "busybox" = "busybox") ∧
    (GetImageName "busybox:latest" = "busybox" ∧ GetImageTag "busybox:latest" = "latest") :=
  ⟨(GetImageName_GetImageTag_spec "busybox").1 (by decide),
   (GetImageName_GetImageTag_spec "busybox:latest").2 "busybox" "latest" (by decide)
     (by decide) (by decide) (by decide)⟩

/-! ## Batch removal -/

section Removal

variable {σ : Type}

theorem RemoveContainers_cons_ok (d : Client σ) (v : String) (rest : List String) (s s1 : σ)
    (h : d.ContainerRemove v true s = (none, s1)) :
    RemoveContainers d (v :: rest) s =
      ((RemoveContainers d rest s1).1, (RemoveContainers d rest s1).2.1,
        ⟨.ContainerRemove v true, none⟩ :: (RemoveContainers d rest s1).2.2) := by
  simp [RemoveContainers, h]

theorem RemoveContainers_cons_err (d : Client σ) (v : String) (rest : List String) (s s1 : σ)
    (e : error) (h : d.ContainerRemove v true s = (some e, s1)) :
    RemoveContainers d (v :: rest) s = (some e, s1, [⟨.ContainerRemove v true, some e⟩]) := by
  simp [RemoveContainers, h]

/-- C8: `RemoveContainers` force-removes the handles in list order, against the engine's
own answers.  If the engine's removal of the handle at position `i` is the first to fail,
with error `e`, the result is exactly `e`, the engine is left in the state of that failed
call, and the calls issued are the removals of the handles before `i`, all successful,
followed by the failed one: none for a later handle.  If the engine's removal of every
handle succeeds, the result is `nil` after one removal per handle.  The result is `nil`
if and only if the engine's removal of every handle succeeded. -/
theorem RemoveContainers_spec (d : Client σ) (ids : List String) (s : σ) :
    (∀ i v e, ids[i]? = some v →
      (∀ j u, j < i → ids[j]? = some u → (removalAt d ids s j u).1 = none) →
      (removalAt d ids s i v).1 = some e →
      RemoveContainers d ids s =
        (some e, (removalAt d ids s i v).2,
          (ids.take i).map (fun u => ⟨.ContainerRemove u true, none⟩) ++
            [⟨.ContainerRemove v true, some e⟩])) ∧
    ((∀ i v, ids[i]? = some v → (removalAt d ids s i v).1 = none) →
      RemoveContainers d ids s =
        (none, afterRemovals d ids s, ids.map (fun u => ⟨.ContainerRemove u true, none⟩))) ∧
    ((RemoveContainers d ids s).1 = none ↔
      ∀ i v, ids[i]? = some v → (removalAt d ids s i v).1 = none) := by
  induction ids generalizing s with
  | nil => simp [RemoveContainers, afterRemovals]
  | cons v0 rest ih =>
    have hshift : ∀ i u, removalAt d (v0 :: rest) s (i + 1) u =
        removalAt d rest (d.ContainerRemove v0 true s).2 i u := fun i u => rfl
    have hzero : ∀ u, removalAt d (v0 :: rest) s 0 u = d.ContainerRemove u true s :=
      fun u => rfl
    rcases hr : d.ContainerRemove v0 true s with ⟨_ | e0, s1⟩
    · rw [RemoveContainers_cons_ok d v0 rest s s1 hr]
      rw [hr] at hshift
      simp only at hshift
      obtain ⟨ih1, ih2, ih3⟩ := ih s1
      refine ⟨?_, ?_, ?_⟩
      · intro i v e hv hbefore hfail
        cases i with
        | zero =>
          simp only [List.getElem?_cons_zero, Option.some.injEq] at hv
          subst hv
          rw [hzero, hr] at hfail
          simp at hfail
        | succ k =>
          simp only [List.getElem?_cons_succ] at hv
          rw [hshift] at hfail
          have hb : ∀ j u, j < k → rest[j]? = some u → (removalAt d rest s1 j u).1 = none := by
            intro j u hj hu
            have := hbefore (j + 1) u (by omega) (by simpa using hu)
            rw [hshift] at this
            exact this
          rw [ih1 k v e hv hb hfail, hshift]
          simp
      · intro hall
        have hb : ∀ j u, rest[j]? = some u → (removalAt d rest s1 j u).1 = none := by
          intro j u hu
          have := hall (j + 1) u (by simpa using hu)
          rw [hshift] at this
          exact this
        rw [ih2 hb]
        simp [afterRemovals, hr]
      · rw [ih3]
        constructor
        · intro hall i v hv
          cases i with
          | zero =>
            simp only [List.getElem?_cons_zero, Option.some.injEq] at hv
            subst hv
            rw [hzero, hr]
          | succ k =>
            simp only [List.getElem?_cons_succ] at hv
            rw [hshift]
            exact hall k v hv
        · intro hall j u hu
          have := hall (j + 1) u (by simpa using hu)
          rw [hshift] at this
          exact this
    · rw [RemoveContainers_cons_err d v0 rest s s1 e0 hr]
      have h0 : (removalAt d (v0 :: rest) s 0 v0).1 = some e0 := by rw [hzero, hr]
      refine ⟨?_, ?_, ?_⟩
      · intro i v e hv hbefore hfail
        cases i with
        | zero =>
          simp only [List.getElem?_cons_zero, Option.some.injEq] at hv
          subst hv
          rw [h0] at hfail
          simp only [Option.some.injEq] at hfail
          subst hfail
          rw [hzero, hr]
          simp
        | succ k =>
          have := hbefore 0 v0 (by omega) (by simp)
          rw [h0] at this
          simp at this
      · intro hall
        have := hall 0 v0 (by simp)
        rw [h0] at this
        simp at this
      · constructor
        · intro h
          simp at h
        · intro hall
          have := hall 0 v0 (by simp)
          rw [h0] at this
          simp at this

end Removal

/-! ## `CreateContainer` and its recovery branches -/

section Create

variable {σ : Type}

/-- The events of `PullImage`: one pull, of the requested image, and no create or remove. -/
theorem PullImage_events (d : Client σ) (ref : String) (s : σ) :
    (PullImage d ref s).2.2.filter Event.isPull =
      [⟨.ImagePull ref, (d.ImagePull ref s).1⟩] ∧
    (PullImage d ref s).2.2.countP Event.isCreate = 0 ∧
    (PullImage d ref s).2.2.countP Event.isRemove = 0 := by
  unfold PullImage
  rcases h1 : d.ImagePull ref s with ⟨_ | e, s1⟩
  · rcases h2 : d.ReadAll s1 with ⟨⟨b, _ | e2⟩, s2⟩ <;>
      simp [h2, List.filter, List.countP_cons, Event.isPull, Event.isCreate, Event.isRemove]
  · simp [List.filter, List.countP_cons, Event.isPull, Event.isCreate, Event.isRemove]

/-- The events of `RemoveContainer`: one forced removal, of the given name, and no create
or pull. -/
theorem RemoveContainer_events (d : Client σ) (id : String) (s : σ) :
    (RemoveContainer d id s).2.2 = [⟨.ContainerRemove id true, (RemoveContainer d id s).1⟩] ∧
    (RemoveContainer d id s).1 = (d.ContainerRemove id true s).1 := by
  unfold RemoveContainer
  rcases h1 : d.ContainerRemove id true s with ⟨_ | e, s1⟩ <;> simp

/-- Whenever `CreateContainer` returns an error, the handle it returns is empty. -/
theorem CreateContainer_error_handle (d : Client σ) (fuel : Nat) (name : String)
    (conf : Config) (hostConf : HostConfig) (s : σ) (id : String) (e : error) (s' : σ)
    (t : List Event)
    (h : CreateContainer d fuel name conf hostConf s = some ((id, some e), s', t)) :
    id = "" := by
  induction fuel generalizing s id e s' t with
  | zero => simp [CreateContainer] at h
  | succ n ih =>
    unfold CreateContainer at h
    rcases hc : d.ContainerCreate conf hostConf name s with ⟨⟨res, _ | ce⟩, s1⟩
    · simp [hc] at h
    · simp only [hc] at h
      split at h
      · rcases hp : PullImage d conf.Image s1 with ⟨_ | pe, s2, tp⟩
        · simp only [hp] at h
          rcases hr : CreateContainer d n name conf hostConf s2 with _ | ⟨⟨rid, _ | re⟩, s3, tr⟩
          · simp [hr] at h
          · simp [hr] at h
          · simp only [hr, Option.some.injEq, Prod.mk.injEq] at h
            exact h.1.1.symm
        · simp only [hp, Option.some.injEq, Prod.mk.injEq] at h
          exact h.1.1.symm
      · split at h
        · rcases hp : RemoveContainer d name s1 with ⟨_ | pe, s2, tp⟩
          · simp only [hp] at h
            rcases hr : CreateContainer d n name conf hostConf s2 with
              _ | ⟨⟨rid, _ | re⟩, s3, tr⟩
            · simp [hr] at h
            · simp [hr] at h
            · simp only [hr, Option.some.injEq, Prod.mk.injEq] at h
              exact h.1.1.symm
          · simp [hp] at h
        · simp only [Option.some.injEq, Prod.mk.injEq] at h
          exact h.1.1.symm

/-- The result of a recovery branch that retries: the retry's result, with the events of
the failed create and of the recovery put in front of the retry's events. -/
theorem CreateContainer_retry (d : Client σ) (n : Nat) (name : String) (conf : Config)
    (hostConf : HostConfig) (s2 : σ) (ev : Event) (t : List Event) :
    (match CreateContainer d n name conf hostConf s2 with
      | none => none
      | some ((_, some err), s3, t') => some (("", some err), s3, ev :: (t ++ t'))
      | some ((id, none), s3, t') => some ((id, none), s3, ev :: (t ++ t'))) =
    (CreateContainer d n name conf hostConf s2).map
      (fun r => (r.1, r.2.1, ev :: (t ++ r.2.2))) := by
  rcases hr : CreateContainer d n name conf hostConf s2 with _ | ⟨⟨rid, _ | re⟩, s3, tr⟩
  · rfl
  · rfl
  · have := CreateContainer_error_handle d n name conf hostConf s2 rid re s3 tr hr
    subst this
    rfl

/-- The missing-image branch of `CreateContainer`: one pull of `conf.Image`; its error is
returned with the empty handle when it fails, and one nested call with the same
arguments gives the result when it succeeds. -/
theorem CreateContainer_pull_branch (d : Client σ) (name : String) (conf : Config)
    (hostConf : HostConfig) (s s1 : σ) (res : ContainerCreateCreatedBody) (e : error)
    (hcreate : d.ContainerCreate conf hostConf name s = ((res, some e), s1))
    (himage : Contains e "No such image" = true) :
    ((PullImage d conf.Image s1).2.2.filter Event.isPull =
        [⟨.ImagePull conf.Image, (d.ImagePull conf.Image s1).1⟩] ∧
      (PullImage d conf.Image s1).2.2.countP Event.isCreate = 0 ∧
      (PullImage d conf.Image s1).2.2.countP Event.isRemove = 0) ∧
    (∀ pe, (PullImage d conf.Image s1).1 = some pe → ∀ fuel,
      CreateContainer d (fuel + 1) name conf hostConf s =
        some (("", some pe), (PullImage d conf.Image s1).2.1,
          ⟨.ContainerCreate conf hostConf name, some e⟩ :: (PullImage d conf.Image s1).2.2)) ∧
    ((PullImage d conf.Image s1).1 = none → ∀ fuel,
      CreateContainer d (fuel + 1) name conf hostConf s =
        (CreateContainer d fuel name conf hostConf (PullImage d conf.Image s1).2.1).map
          (fun r => (r.1, r.2.1,
            ⟨.ContainerCreate conf hostConf name, some e⟩ ::
              ((PullImage d conf.Image s1).2.2 ++ r.2.2)))) := by
  refine ⟨PullImage_events d conf.Image s1, ?_, ?_⟩
  · intro pe hp fuel
    rcases hpull : PullImage d conf.Image s1 with ⟨r, s2, t⟩
    rw [hpull] at hp
    simp only at hp
    subst hp
    simp [CreateContainer, hcreate, himage, hpull]
  · intro hp fuel
    rcases hpull : PullImage d conf.Image s1 with ⟨r, s2, t⟩
    rw [hpull] at hp
    simp only at hp
    subst hp
    rw [← CreateContainer_retry]
    simp [CreateContainer, hcreate, himage, hpull]

/-- The name-collision branch of `CreateContainer` (see C1): when the create call fails
with a message containing "is already in use by container" and not "No such image", one
forced removal of the container name is issued.  If it succeeds, the result is that of
one nested `CreateContainer` call with the same arguments.  If it fails, no further
create is issued and the result is the handle of the failed create response with a `nil`
error: the removal's error is not returned. -/
theorem CreateContainer_name_in_use (d : Client σ) (name : String) (conf : Config)
    (hostConf : HostConfig) (s s1 : σ) (res : ContainerCreateCreatedBody) (e : error)
    (hcreate : d.ContainerCreate conf hostConf name s = ((res, some e), s1))
    (himage : Contains e "No such image" = false)
    (hname : Contains e "is already in use by container" = true) :
    (RemoveContainer d name s1).2.2 =
      [⟨.ContainerRemove name true, (RemoveContainer d name s1).1⟩] ∧
    (∀ re, (RemoveContainer d name s1).1 = some re → ∀ fuel,
      CreateContainer d (fuel + 1) name conf hostConf s =
        some ((res.ID, none), (RemoveContainer d name s1).2.1,
          [⟨.ContainerCreate conf hostConf name, some e⟩,
           ⟨.ContainerRemove name true, some re⟩])) ∧
    ((RemoveContainer d name s1).1 = none → ∀ fuel,
      CreateContainer d (fuel + 1) name conf hostConf s =
        (CreateContainer d fuel name conf hostConf (RemoveContainer d name s1).2.1).map
          (fun r => (r.1, r.2.1,
            ⟨.ContainerCreate conf hostConf name, some e⟩ ::
              ((RemoveContainer d name s1).2.2 ++ r.2.2)))) := by
  have hev := (RemoveContainer_events d name s1).1
  refine ⟨hev, ?_, ?_⟩
  · intro re hp fuel
    rcases hrm : RemoveContainer d name s1 with ⟨r, s2, t⟩
    rw [hrm] at hp hev
    simp only at hp hev
    subst hp
    simp [CreateContainer, hcreate, himage, hname, hrm, hev]
  · intro hp fuel
    rcases hrm : RemoveContainer d name s1 with ⟨r, s2, t⟩
    rw [hrm] at hp
    simp only at hp
    subst hp
    rw [← CreateContainer_retry]
    simp [CreateContainer, hcreate, himage, hname, hrm]

/-- C2: when the engine's create call fails with a message containing "No such image",
`CreateContainer` issues one pull, of `conf.Image`, and no other create, pull or removal
before the pull is settled.  If the pull fails with `pe`, the result is the empty handle
with `pe`, and the only events are the failed create and those of the pull.  If the pull
succeeds, the result is that of one nested `CreateContainer` call with the same name,
configuration and host configuration, run in the state the pull left: the same handle and
error, the same final state, and the retry's events after those of the failed create and
of the pull. -/
theorem CreateContainer_no_such_image (d : Client σ) (name : String) (conf : Config)
    (hostConf : HostConfig) (s s1 : σ) (res : ContainerCreateCreatedBody) (e : error)
    (hcreate : d.ContainerCreate conf hostConf name s = ((res, some e), s1))
    (himage : Contains e "No such image" = true) :
    ((PullImage d conf.Image s1).2.2.filter Event.isPull =
        [⟨.ImagePull conf.Image, (d.ImagePull conf.Image s1).1⟩] ∧
      (PullImage d conf.Image s1).2.2.countP Event.isCreate = 0 ∧
      (PullImage d conf.Image s1).2.2.countP Event.isRemove = 0) ∧
    (∀ pe, (PullImage d conf.Image s1).1 = some pe → ∀ fuel,
      CreateContainer d (fuel + 1) name conf hostConf s =
        some (("", some pe), (PullImage d conf.Image s1).2.1,
          ⟨.ContainerCreate conf hostConf name, some e⟩ :: (PullImage d conf.Image s1).2.2)) ∧
    ((PullImage d conf.Image s1).1 = none → ∀ fuel,
      CreateContainer d (fuel + 1) name conf hostConf s =
        (CreateContainer d fuel name conf hostConf (PullImage d conf.Image s1).2.1).map
          (fun r => (r.1, r.2.1,
            ⟨.ContainerCreate conf hostConf name, some e⟩ ::
              ((PullImage d conf.Image s1).2.2 ++ r.2.2)))) :=
  CreateContainer_pull_branch d name conf hostConf s s1 res e hcreate himage

end Create

/-! ## `WaitContainerDone` -/

section Waiting

variable {σ : Type}

theorem StatusContainer_events (d : Client σ) (id : String) (s : σ) :
    (StatusContainer d id s).2.2 = [⟨.ContainerInspect id, (StatusContainer d id s).1.2⟩] := by
  unfold StatusContainer
  rcases h : d.ContainerInspect id s with ⟨⟨st, _ | e⟩, s1⟩ <;> simp

/-- Once the caller has returned, a worker that holds a terminal status and no error
blocks at its next send, causing no further event. -/
theorem worker_after_return (EqualFold : String → String → Bool) (d : Client σ)
    (id : String) (fuel : Nat) (status : String) (w : Wait σ) (v : Option error)
    (hc : w.caller = .returned v)
    (hterm : (EqualFold "done" status || EqualFold "exited" status) = true) :
    (worker EqualFold d id fuel status none w).1 = w ∧
    (1 ≤ fuel → (worker EqualFold d id fuel status none w).2 = .blocked) := by
  cases fuel with
  | zero => simp [worker]
  | succ f =>
    rcases w with ⟨eng, c, bef, aft⟩
    simp only at hc
    subst hc
    simp [worker, hterm, signal, sendDone]

/-- The polling loop while the caller still waits: with the statuses of the coming
queries non-terminal up to query `k` and terminal at query `k`, all without error. -/
theorem worker_success (EqualFold : String → String → Bool) (d : Client σ) (id : String)
    (k : Nat) (s : σ) (bef : List Event) (fuel : Nat)
    (hok : ∀ j, j ≤ k → (pollResult d id j s).2 = none)
    (hrun : ∀ j, j < k →
      (EqualFold "done" (pollResult d id j s).1 ||
        EqualFold "exited" (pollResult d id j s).1) = false)
    (hdone : (EqualFold "done" (pollResult d id k s).1 ||
        EqualFold "exited" (pollResult d id k s).1) = true)
    (hfuel : k + 1 ≤ fuel) :
    (worker EqualFold d id fuel (StatusContainer d id s).1.1 (StatusContainer d id s).1.2
        { eng := (StatusContainer d id s).2.1, caller := .recvDone,
          before := bef ++ (StatusContainer d id s).2.2, after := [] }).1.caller =
      .returned none ∧
    (worker EqualFold d id fuel (StatusContainer d id s).1.1 (StatusContainer d id s).1.2
        { eng := (StatusContainer d id s).2.1, caller := .recvDone,
          before := bef ++ (StatusContainer d id s).2.2, after := [] }).1.before =
      bef ++ ((List.replicate k
        [(⟨.ContainerInspect id, none⟩ : Event), ⟨.Sleep 1, none⟩]).flatten ++
        [⟨.ContainerInspect id, none⟩]) ∧
    (worker EqualFold d id fuel (StatusContainer d id s).1.1 (StatusContainer d id s).1.2
        { eng := (StatusContainer d id s).2.1, caller := .recvDone,
          before := bef ++ (StatusContainer d id s).2.2, after := [] }).1.after = [] ∧
    (k + 2 ≤ fuel →
      (worker EqualFold d id fuel (StatusContainer d id s).1.1 (StatusContainer d id s).1.2
        { eng := (StatusContainer d id s).2.1, caller := .recvDone,
          before := bef ++ (StatusContainer d id s).2.2, after := [] }).2 = .blocked) := by
  induction k generalizing s bef fuel with
  | zero =>
    obtain ⟨f, rfl⟩ : ∃ f, fuel = f + 1 := ⟨fuel - 1, by omega⟩
    have h0 : (StatusContainer d id s).1.2 = none := hok 0 (le_refl 0)
    have ht : (EqualFold "done" (StatusContainer d id s).1.1 ||
        EqualFold "exited" (StatusContainer d id s).1.1) = true := hdone
    have hev := StatusContainer_events d id s
    rw [h0] at hev
    rw [h0, hev]
    have key := worker_after_return EqualFold d id f (StatusContainer d id s).1.1
      { eng := (StatusContainer d id s).2.1, caller := .returned none,
        before := bef ++ [⟨.ContainerInspect id, none⟩], after := [] } none rfl ht
    have hstep : worker EqualFold d id (f + 1) (StatusContainer d id s).1.1 none
        { eng := (StatusContainer d id s).2.1, caller := .recvDone,
          before := bef ++ [⟨.ContainerInspect id, none⟩], after := [] } =
        worker EqualFold d id f (StatusContainer d id s).1.1 none
        { eng := (StatusContainer d id s).2.1, caller := .returned none,
          before := bef ++ [⟨.ContainerInspect id, none⟩], after := [] } := by
      simp [worker, ht, signal, sendDone, sendErr]
    rw [hstep, key.1]
    refine ⟨rfl, by simp, rfl, fun h => key.2 (by omega)⟩
  | succ k ih =>
    obtain ⟨f, rfl⟩ : ∃ f, fuel = f + 1 := ⟨fuel - 1, by omega⟩
    have h0 : (StatusContainer d id s).1.2 = none := hok 0 (Nat.zero_le _)
    have ht : (EqualFold "done" (StatusContainer d id s).1.1 ||
        EqualFold "exited" (StatusContainer d id s).1.1) = false := hrun 0 (Nat.succ_pos _)
    have hev := StatusContainer_events d id s
    rw [h0] at hev
    rw [h0, hev]
    have hstep : worker EqualFold d id (f + 1) (StatusContainer d id s).1.1 none
        { eng := (StatusContainer d id s).2.1, caller := .recvDone,
          before := bef ++ [⟨.ContainerInspect id, none⟩], after := [] } =
        worker EqualFold d id f
          (StatusContainer d id (d.Sleep 1 (StatusContainer d id s).2.1)).1.1
          (StatusContainer d id (d.Sleep 1 (StatusContainer d id s).2.1)).1.2
        { eng := (StatusContainer d id (d.Sleep 1 (StatusContainer d id s).2.1)).2.1,
          caller := .recvDone,
          before := (bef ++ [⟨.ContainerInspect id, none⟩, ⟨.Sleep 1, none⟩]) ++
            (StatusContainer d id (d.Sleep 1 (StatusContainer d id s).2.1)).2.2,
          after := [] } := by
      simp [worker, ht, Wait.emit]
    rw [hstep]
    have := ih (d.Sleep 1 (StatusContainer d id s).2.1)
      (bef ++ [⟨.ContainerInspect id, none⟩, ⟨.Sleep 1, none⟩]) f
      (fun j hj => hok (j + 1) (by omega))
      (fun j hj => hrun (j + 1) (by omega))
      hdone (by omega)
    obtain ⟨a1, a2, a3, a4⟩ := this
    refine ⟨a1, ?_, a3, fun h => a4 (by omega)⟩
    rw [a2]
    simp [List.replicate_succ]

/-- C4: let the status queries number 0 to `k` of the polling loop all succeed, with
query `k` the first whose status is equal to "done" or "exited" under `EqualFold`.  Then
`WaitContainerDone` returns `nil`; up to its return exactly `k + 1` status queries were
issued, each of the first `k` followed by a one-second sleep; and the worker causes no
event afterwards: it blocks at its next send. -/
theorem WaitContainerDone_success (EqualFold : String → String → Bool) (d : Client σ)
    (id : String) (k : Nat) (s : σ) (fuel : Nat)
    (hok : ∀ j, j ≤ k → (pollResult d id j s).2 = none)
    (hrun : ∀ j, j < k →
      (EqualFold "done" (pollResult d id j s).1 ||
        EqualFold "exited" (pollResult d id j s).1) = false)
    (hdone : (EqualFold "done" (pollResult d id k s).1 ||
        EqualFold "exited" (pollResult d id k s).1) = true)
    (hfuel : k + 1 ≤ fuel) :
    (WaitContainerDone EqualFold d fuel id s).1.caller = .returned none ∧
    (WaitContainerDone EqualFold d fuel id s).1.before =
      (List.replicate k [(⟨.ContainerInspect id, none⟩ : Event), ⟨.Sleep 1, none⟩]).flatten ++
        [⟨.ContainerInspect id, none⟩] ∧
    ((WaitContainerDone EqualFold d fuel id s).1.before.countP Event.isInspect = k + 1 ∧
      (WaitContainerDone EqualFold d fuel id s).1.before.count ⟨.Sleep 1, none⟩ = k) ∧
    (WaitContainerDone EqualFold d fuel id s).1.after = [] ∧
    (k + 2 ≤ fuel → (WaitContainerDone EqualFold d fuel id s).2 = .blocked) := by
  have key := worker_success EqualFold d id k s [] fuel hok hrun hdone hfuel
  simp only [List.nil_append] at key
  have hunf : WaitContainerDone EqualFold d fuel id s =
      worker EqualFold d id fuel (StatusContainer d id s).1.1 (StatusContainer d id s).1.2
        { eng := (StatusContainer d id s).2.1, caller := .recvDone,
          before := (StatusContainer d id s).2.2, after := [] } := rfl
  rw [hunf]
  obtain ⟨a1, a2, a3, a4⟩ := key
  refine ⟨a1, a2, ?_, a3, a4⟩
  rw [a2]
  have hcount : ∀ n : Nat,
      (List.replicate n [(⟨.ContainerInspect id, none⟩ : Event), ⟨.Sleep 1, none⟩]).flatten.countP
        Event.isInspect = n ∧
      (List.replicate n [(⟨.ContainerInspect id, none⟩ : Event), ⟨.Sleep 1, none⟩]).flatten.count
        ⟨.Sleep 1, none⟩ = n := by
    intro n
    induction n with
    | zero => simp
    | succ n ihn =>
      simp only [List.replicate_succ, List.flatten_cons, List.countP_append, List.count_append, ihn]
      constructor
      · simp [List.countP_cons, Event.isInspect]
        omega
      · simp [List.count_cons]
        omega
  constructor
  · rw [List.countP_append, (hcount k).1]
    simp [List.countP_cons, Event.isInspect]
  · rw [List.count_append, (hcount k).2]
    simp [List.count_cons]

theorem StatusContainer_error_status (d : Client σ) (id : String) (s : σ) (e : error)
    (h : (StatusContainer d id s).1.2 = some e) : (StatusContainer d id s).1.1 = "" := by
  revert h
  unfold StatusContainer
  rcases h : d.ContainerInspect id s with ⟨⟨st, _ | e2⟩, s1⟩ <;> simp

/-- Once the caller has returned, the worker leaves the caller's result and the events
before the return untouched and only adds to the events after it. -/
theorem worker_returned (EqualFold : String → String → Bool) (d : Client σ) (id : String)
    (fuel : Nat) (status : String) (err : Option error) (w : Wait σ) (v : Option error)
    (hc : w.caller = .returned v) :
    (worker EqualFold d id fuel status err w).1.caller = .returned v ∧
    (worker EqualFold d id fuel status err w).1.before = w.before ∧
    ∃ rest, (worker EqualFold d id fuel status err w).1.after = w.after ++ rest := by
  induction fuel generalizing status err w with
  | zero => exact ⟨hc, rfl, [], by simp [worker]⟩
  | succ f ih =>
    rcases w with ⟨eng, c, bef, aft⟩
    simp only at hc
    subst hc
    cases err with
    | some e => exact ⟨rfl, rfl, [], by simp [worker, signal, sendDone]⟩
    | none =>
      cases ht : (EqualFold "done" status || EqualFold "exited" status) with
      | true =>
        refine ⟨?_, ?_, [], ?_⟩ <;> simp [worker, signal, sendDone, ht]
      | false =>
        have hstep : worker EqualFold d id (f + 1) status none
            { eng := eng, caller := .returned v, before := bef, after := aft } =
            worker EqualFold d id f (StatusContainer d id (d.Sleep 1 eng)).1.1
              (StatusContainer d id (d.Sleep 1 eng)).1.2
              { eng := (StatusContainer d id (d.Sleep 1 eng)).2.1, caller := .returned v,
                before := bef,
                after := (aft ++ [⟨.Sleep 1, none⟩]) ++
                  (StatusContainer d id (d.Sleep 1 eng)).2.2 } := by
          simp [worker, ht, Wait.emit]
        rw [hstep]
        obtain ⟨a1, a2, rest, a3⟩ := ih (StatusContainer d id (d.Sleep 1 eng)).1.1
          (StatusContainer d id (d.Sleep 1 eng)).1.2
          { eng := (StatusContainer d id (d.Sleep 1 eng)).2.1, caller := .returned v,
            before := bef,
            after := (aft ++ [⟨.Sleep 1, none⟩]) ++
              (StatusContainer d id (d.Sleep 1 eng)).2.2 } rfl
        refine ⟨a1, a2, [⟨.Sleep 1, none⟩] ++ (StatusContainer d id (d.Sleep 1 eng)).2.2 ++ rest,
          ?_⟩
        rw [a3]
        simp

/-- The error path of `WaitContainerDone` (see C3), for any engine and any `EqualFold`
that tells the empty status from "done" and "exited": when the first status query fails
with `e`, the method returns `e`, and the worker then sleeps and issues another status
query. -/
theorem WaitContainerDone_first_query_fails (EqualFold : String → String → Bool)
    (d : Client σ) (id : String) (s : σ) (e : error) (fuel : Nat)
    (hfold : (EqualFold "done" "" || EqualFold "exited" "") = false)
    (hfail : (StatusContainer d id s).1.2 = some e) :
    (WaitContainerDone EqualFold d (fuel + 1) id s).1.caller = .returned (some e) ∧
    (WaitContainerDone EqualFold d (fuel + 1) id s).1.before =
      [⟨.ContainerInspect id, some e⟩] ∧
    ∃ rest, (WaitContainerDone EqualFold d (fuel + 1) id s).1.after =
      ⟨.Sleep 1, none⟩ ::
        ⟨.ContainerInspect id,
          (StatusContainer d id (d.Sleep 1 (StatusContainer d id s).2.1)).1.2⟩ :: rest := by
  have hst := StatusContainer_error_status d id s e hfail
  have hev := StatusContainer_events d id s
  rw [hfail] at hev
  have hunf : WaitContainerDone EqualFold d (fuel + 1) id s =
      worker EqualFold d id (fuel + 1) "" (some e)
        { eng := (StatusContainer d id s).2.1, caller := .recvDone,
          before := [⟨.ContainerInspect id, some e⟩], after := [] } := by
    show worker EqualFold d id (fuel + 1) (StatusContainer d id s).1.1
        (StatusContainer d id s).1.2
        { eng := (StatusContainer d id s).2.1, caller := .recvDone,
          before := (StatusContainer d id s).2.2, after := [] } = _
    rw [hst, hfail, hev]
  have hstep : worker EqualFold d id (fuel + 1) "" (some e)
        { eng := (StatusContainer d id s).2.1, caller := .recvDone,
          before := [⟨.ContainerInspect id, some e⟩], after := [] } =
      worker EqualFold d id fuel
        (StatusContainer d id (d.Sleep 1 (StatusContainer d id s).2.1)).1.1
        (StatusContainer d id (d.Sleep 1 (StatusContainer d id s).2.1)).1.2
        { eng := (StatusContainer d id (d.Sleep 1 (StatusContainer d id s).2.1)).2.1,
          caller := .returned (some e),
          before := [⟨.ContainerInspect id, some e⟩],
          after := [⟨.Sleep 1, none⟩] ++
            (StatusContainer d id (d.Sleep 1 (StatusContainer d id s).2.1)).2.2 } := by
    simp [worker, hfold, signal, sendDone, sendErr, Wait.emit]
  rw [hunf, hstep]
  obtain ⟨a1, a2, rest, a3⟩ := worker_returned EqualFold d id fuel
    (StatusContainer d id (d.Sleep 1 (StatusContainer d id s).2.1)).1.1
    (StatusContainer d id (d.Sleep 1 (StatusContainer d id s).2.1)).1.2
    { eng := (StatusContainer d id (d.Sleep 1 (StatusContainer d id s).2.1)).2.1,
      caller := .returned (some e),
      before := [⟨.ContainerInspect id, some e⟩],
      after := [⟨.Sleep 1, none⟩] ++
        (StatusContainer d id (d.Sleep 1 (StatusContainer d id s).2.1)).2.2 } (some e) rfl
  refine ⟨a1, a2, rest, ?_⟩
  rw [a3, StatusContainer_events]
  rfl

end Waiting

/-! ## Termination of `CreateContainer` when recoveries remove their fault -/

section Termination

variable {σ : Type}

theorem Reach.trans {d : Client σ} {name : String} {conf : Config} {hostConf : HostConfig}
    {a b c : σ} (h1 : Reach d name conf hostConf a b) (h2 : Reach d name conf hostConf b c) :
    Reach d name conf hostConf a c := by
  induction h2 with
  | refl => exact h1
  | create _ hf ih => exact Reach.create ih hf
  | pull _ hf ih => exact Reach.pull ih hf
  | remove _ hf ih => exact Reach.remove ih hf

theorem PullImage_counts (d : Client σ) (ref : String) (s : σ) :
    (PullImage d ref s).2.2.countP Event.isCreate = 0 ∧
    (PullImage d ref s).2.2.countP Event.isPull = 1 ∧
    (PullImage d ref s).2.2.countP Event.isRemove = 0 := by
  obtain ⟨h1, h2, h3⟩ := PullImage_events d ref s
  refine ⟨h2, ?_, h3⟩
  rw [List.countP_eq_length_filter, h1]
  rfl

theorem RemoveContainer_counts (d : Client σ) (id : String) (s : σ) :
    (RemoveContainer d id s).2.2.countP Event.isCreate = 0 ∧
    (RemoveContainer d id s).2.2.countP Event.isPull = 0 ∧
    (RemoveContainer d id s).2.2.countP Event.isRemove = 1 := by
  rw [(RemoveContainer_events d id s).1]
  simp [List.countP_cons, Event.isCreate, Event.isPull, Event.isRemove]

/-- One call of `CreateContainer` whose create succeeds. -/
theorem CreateContainer_create_ok (d : Client σ) (name : String) (conf : Config)
    (hostConf : HostConfig) (s s1 : σ) (res : ContainerCreateCreatedBody) (fuel : Nat)
    (hcreate : d.ContainerCreate conf hostConf name s = ((res, none), s1)) :
    CreateContainer d (fuel + 1) name conf hostConf s =
      some ((res.ID, none), s1, [⟨.ContainerCreate conf hostConf name, none⟩]) := by
  simp [CreateContainer, hcreate]

/-- One call of `CreateContainer` whose create fails with an unrecognised message. -/
theorem CreateContainer_create_other (d : Client σ) (name : String) (conf : Config)
    (hostConf : HostConfig) (s s1 : σ) (res : ContainerCreateCreatedBody) (e : error)
    (fuel : Nat)
    (hcreate : d.ContainerCreate conf hostConf name s = ((res, some e), s1))
    (himage : Contains e "No such image" = false)
    (hname : Contains e "is already in use by container" = false) :
    CreateContainer d (fuel + 1) name conf hostConf s =
      some (("", some e), s1, [⟨.ContainerCreate conf hostConf name, some e⟩]) := by
  simp [CreateContainer, hcreate, himage, hname]

/-- A retry that settles makes the recovering call settle, with one more unit of fuel,
one more create and the events of the recovery. -/
theorem Settles_of_retry (d : Client σ) (name : String) (conf : Config)
    (hostConf : HostConfig) (s s2 : σ) (ev : Event) (t : List Event) (n c p r c1 p1 r1 : Nat)
    (hev : ev.isCreate = true ∧ ev.isPull = false ∧ ev.isRemove = false)
    (ht : t.countP Event.isCreate = 0 ∧ t.countP Event.isPull ≤ p1 ∧
      t.countP Event.isRemove ≤ r1)
    (hstep : ∀ fuel, CreateContainer d (fuel + 1) name conf hostConf s =
      (CreateContainer d fuel name conf hostConf s2).map
        (fun o => (o.1, o.2.1, ev :: (t ++ o.2.2))))
    (hrec : Settles d name conf hostConf s2 n c p r)
    (hc : c + 1 ≤ c1) :
    Settles d name conf hostConf s (n + 1) c1 (p + p1) (r + r1) := by
  obtain ⟨out, hout, b1, b2, b3⟩ := hrec
  refine ⟨(out.1, out.2.1, ev :: (t ++ out.2.2)), ?_, ?_, ?_, ?_⟩
  · intro fuel hf
    obtain ⟨f, rfl⟩ : ∃ f, fuel = f + 1 := ⟨fuel - 1, by omega⟩
    rw [hstep f, hout f (by omega)]
    rfl
  · simp only [List.countP_cons, List.countP_append, hev.1, ht.1, if_true]
    omega
  · simp only [List.countP_cons, List.countP_append, hev.2.1]
    simp only [Bool.false_eq_true, if_false]
    omega
  · simp only [List.countP_cons, List.countP_append, hev.2.2]
    simp only [Bool.false_eq_true, if_false]
    omega

theorem Settles_mono (d : Client σ) (name : String) (conf : Config)
    (hostConf : HostConfig) (s : σ) (n c p r n1 c1 p1 r1 : Nat)
    (h : Settles d name conf hostConf s n c p r)
    (hn : n ≤ n1) (hc : c ≤ c1) (hp : p ≤ p1) (hr : r ≤ r1) :
    Settles d name conf hostConf s n1 c1 p1 r1 := by
  obtain ⟨out, hout, b1, b2, b3⟩ := h
  exact ⟨out, fun fuel hf => hout fuel (by omega), by omega, by omega, by omega⟩

/-- A call that ends after its own create, without a retry. -/
theorem Settles_of_direct (d : Client σ) (name : String) (conf : Config)
    (hostConf : HostConfig) (s : σ) (out : (String × Option error) × σ × List Event)
    (c p r : Nat)
    (hstep : ∀ fuel, CreateContainer d (fuel + 1) name conf hostConf s = some out)
    (hc : out.2.2.countP Event.isCreate ≤ c) (hp : out.2.2.countP Event.isPull ≤ p)
    (hr : out.2.2.countP Event.isRemove ≤ r) :
    Settles d name conf hostConf s 1 c p r := by
  refine ⟨out, ?_, hc, hp, hr⟩
  intro fuel hf
  obtain ⟨f, rfl⟩ : ∃ f, fuel = f + 1 := ⟨fuel - 1, by omega⟩
  exact hstep f

/-- A state in which the create reports neither fault: one create settles the call. -/
theorem Settles_clean (d : Client σ) (name : String) (conf : Config)
    (hostConf : HostConfig) (s : σ)
    (hI : ∀ e, (d.ContainerCreate conf hostConf name s).1.2 = some e →
      Contains e "No such image" = false)
    (hU : ∀ e, (d.ContainerCreate conf hostConf name s).1.2 = some e →
      Contains e "is already in use by container" = false) :
    Settles d name conf hostConf s 1 1 0 0 := by
  rcases hcreate : d.ContainerCreate conf hostConf name s with ⟨⟨res, _ | e⟩, s1⟩
  · exact Settles_of_direct d name conf hostConf s _ 1 0 0
      (fun f => CreateContainer_create_ok d name conf hostConf s s1 res f hcreate)
      (by simp [List.countP_cons, Event.isCreate]) (by simp [List.countP_cons, Event.isPull])
      (by simp [List.countP_cons, Event.isRemove])
  · have h1 := hI e (by rw [hcreate])
    have h2 := hU e (by rw [hcreate])
    exact Settles_of_direct d name conf hostConf s _ 1 0 0
      (fun f => CreateContainer_create_other d name conf hostConf s s1 res e f hcreate h1 h2)
      (by simp [List.countP_cons, Event.isCreate]) (by simp [List.countP_cons, Event.isPull])
      (by simp [List.countP_cons, Event.isRemove])

/-- From a state after which no create reports a missing image: at most two creates, no
pull and at most one removal. -/
theorem Settles_image_present (d : Client σ) (name : String) (conf : Config)
    (hostConf : HostConfig) (s : σ)
    (hI : ∀ s2, Reach d name conf hostConf s s2 →
      ∀ e, (d.ContainerCreate conf hostConf name s2).1.2 = some e →
        Contains e "No such image" = false)
    (hR : ∀ s1, Reach d name conf hostConf s s1 → (RemoveContainer d name s1).1 = none →
      ∀ s2, Reach d name conf hostConf (RemoveContainer d name s1).2.1 s2 →
        ∀ e, (d.ContainerCreate conf hostConf name s2).1.2 = some e →
          Contains e "is already in use by container" = false) :
    Settles d name conf hostConf s 2 2 0 1 := by
  rcases hcreate : d.ContainerCreate conf hostConf name s with ⟨⟨res, _ | e⟩, s1⟩
  · exact Settles_mono d name conf hostConf s 1 1 0 0 2 2 0 1
      (Settles_of_direct d name conf hostConf s _ 1 0 0
        (fun f => CreateContainer_create_ok d name conf hostConf s s1 res f hcreate)
        (by simp [List.countP_cons, Event.isCreate]) (by simp [List.countP_cons, Event.isPull])
        (by simp [List.countP_cons, Event.isRemove]))
      (by omega) (by omega) (by omega) (by omega)
  · have h1 := hI s (Reach.refl s) e (by rw [hcreate])
    have hs1 : Reach d name conf hostConf s s1 := by
      have := Reach.create (Reach.refl s) (show
        (d.ContainerCreate conf hostConf name s).1.2 ≠ none by rw [hcreate]; simp)
      rw [hcreate] at this
      exact this
    cases h2 : Contains e "is already in use by container" with
    | false =>
      exact Settles_mono d name conf hostConf s 1 1 0 0 2 2 0 1
        (Settles_of_direct d name conf hostConf s _ 1 0 0
          (fun f => CreateContainer_create_other d name conf hostConf s s1 res e f hcreate h1 h2)
          (by simp [List.countP_cons, Event.isCreate])
          (by simp [List.countP_cons, Event.isPull])
          (by simp [List.countP_cons, Event.isRemove]))
        (by omega) (by omega) (by omega) (by omega)
    | true =>
      obtain ⟨_, bfail, bok⟩ := CreateContainer_name_in_use d name conf hostConf s s1 res e
        hcreate h1 h2
      obtain ⟨k1, k2, k3⟩ := RemoveContainer_counts d name s1
      rcases hrm : (RemoveContainer d name s1).1 with _ | re
      · have hclean := Settles_clean d name conf hostConf (RemoveContainer d name s1).2.1
          (hI _ (Reach.remove hs1 hrm))
          (hR s1 hs1 hrm _ (Reach.refl _))
        exact Settles_of_retry d name conf hostConf s _ ⟨.ContainerCreate conf hostConf name, some e⟩ _
            1 1 0 0 2 0 1
          ⟨rfl, rfl, rfl⟩ ⟨k1, by omega, by omega⟩ (bok hrm) hclean (by omega)
      · exact Settles_mono d name conf hostConf s 1 1 0 1 2 2 0 1
          (Settles_of_direct d name conf hostConf s _ 1 0 1 (bfail re hrm)
            (by simp [List.countP_cons, Event.isCreate])
            (by simp [List.countP_cons, Event.isPull])
            (by simp [List.countP_cons, Event.isRemove]))
          (by omega) (by omega) (by omega) (by omega)

/-- From a state after which no create reports a name in use: at most two creates, at
most one pull and no removal. -/
theorem Settles_name_free (d : Client σ) (name : String) (conf : Config)
    (hostConf : HostConfig) (s : σ)
    (hU : ∀ s2, Reach d name conf hostConf s s2 →
      ∀ e, (d.ContainerCreate conf hostConf name s2).1.2 = some e →
        Contains e "is already in use by container" = false)
    (hP : ∀ s1, Reach d name conf hostConf s s1 → (PullImage d conf.Image s1).1 = none →
      ∀ s2, Reach d name conf hostConf (PullImage d conf.Image s1).2.1 s2 →
        ∀ e, (d.ContainerCreate conf hostConf name s2).1.2 = some e →
          Contains e "No such image" = false) :
    Settles d name conf hostConf s 2 2 1 0 := by
  rcases hcreate : d.ContainerCreate conf hostConf name s with ⟨⟨res, _ | e⟩, s1⟩
  · exact Settles_mono d name conf hostConf s 1 1 0 0 2 2 1 0
      (Settles_of_direct d name conf hostConf s _ 1 0 0
        (fun f => CreateContainer_create_ok d name conf hostConf s s1 res f hcreate)
        (by simp [List.countP_cons, Event.isCreate]) (by simp [List.countP_cons, Event.isPull])
        (by simp [List.countP_cons, Event.isRemove]))
      (by omega) (by omega) (by omega) (by omega)
  · have h2 := hU s (Reach.refl s) e (by rw [hcreate])
    have hs1 : Reach d name conf hostConf s s1 := by
      have := Reach.create (Reach.refl s) (show
        (d.ContainerCreate conf hostConf name s).1.2 ≠ none by rw [hcreate]; simp)
      rw [hcreate] at this
      exact this
    cases h1 : Contains e "No such image" with
    | false =>
      exact Settles_mono d name conf hostConf s 1 1 0 0 2 2 1 0
        (Settles_of_direct d name conf hostConf s _ 1 0 0
          (fun f => CreateContainer_create_other d name conf hostConf s s1 res e f hcreate h1 h2)
          (by simp [List.countP_cons, Event.isCreate])
          (by simp [List.countP_cons, Event.isPull])
          (by simp [List.countP_cons, Event.isRemove]))
        (by omega) (by omega) (by omega) (by omega)
    | true =>
      obtain ⟨_, bfail, bok⟩ := CreateContainer_pull_branch d name conf hostConf s s1 res e
        hcreate h1
      obtain ⟨k1, k2, k3⟩ := PullImage_counts d conf.Image s1
      rcases hpl : (PullImage d conf.Image s1).1 with _ | pe
      · have hclean := Settles_clean d name conf hostConf (PullImage d conf.Image s1).2.1
          (hP s1 hs1 hpl _ (Reach.refl _))
          (hU _ (Reach.pull hs1 hpl))
        exact Settles_of_retry d name conf hostConf s _ ⟨.ContainerCreate conf hostConf name, some e⟩ _
            1 1 0 0 2 1 0
          ⟨rfl, rfl, rfl⟩ ⟨k1, by omega, by omega⟩ (bok hpl) hclean (by omega)
      · refine Settles_mono d name conf hostConf s 1 1 1 0 2 2 1 0
          (Settles_of_direct d name conf hostConf s _ 1 1 0 (bfail pe hpl) ?_ ?_ ?_)
          (by omega) (by omega) (by omega) (by omega)
        · simp [List.countP_cons, Event.isCreate, k1]
        · simp [List.countP_cons, Event.isPull, k2]
        · simp [List.countP_cons, Event.isRemove, k3]

/-- C10: suppose that, along the calls `CreateContainer` makes for these arguments from
the state `s`, no create reports "No such image" once a pull of `conf.Image` has
succeeded, and no create reports "is already in use by container" once a forced removal
of the name has succeeded.  Then `CreateContainer` terminates: with a nesting depth of
three (or more) it returns a result, and up to it the engine received at most three
creates, at most one pull and at most one removal. -/
theorem CreateContainer_terminates (d : Client σ) (name : String) (conf : Config)
    (hostConf : HostConfig) (s : σ)
    (hP : ∀ s1, Reach d name conf hostConf s s1 → (PullImage d conf.Image s1).1 = none →
      ∀ s2, Reach d name conf hostConf (PullImage d conf.Image s1).2.1 s2 →
        ∀ e, (d.ContainerCreate conf hostConf name s2).1.2 = some e →
          Contains e "No such image" = false)
    (hR : ∀ s1, Reach d name conf hostConf s s1 → (RemoveContainer d name s1).1 = none →
      ∀ s2, Reach d name conf hostConf (RemoveContainer d name s1).2.1 s2 →
        ∀ e, (d.ContainerCreate conf hostConf name s2).1.2 = some e →
          Contains e "is already in use by container" = false) :
    ∃ out, (∀ fuel, 3 ≤ fuel → CreateContainer d fuel name conf hostConf s = some out) ∧
      out.2.2.countP Event.isCreate ≤ 3 ∧ out.2.2.countP Event.isPull ≤ 1 ∧
      out.2.2.countP Event.isRemove ≤ 1 := by
  show Settles d name conf hostConf s 3 3 1 1
  rcases hcreate : d.ContainerCreate conf hostConf name s with ⟨⟨res, _ | e⟩, s1⟩
  · exact Settles_mono d name conf hostConf s 1 1 0 0 3 3 1 1
      (Settles_of_direct d name conf hostConf s _ 1 0 0
        (fun f => CreateContainer_create_ok d name conf hostConf s s1 res f hcreate)
        (by simp [List.countP_cons, Event.isCreate]) (by simp [List.countP_cons, Event.isPull])
        (by simp [List.countP_cons, Event.isRemove]))
      (by omega) (by omega) (by omega) (by omega)
  · have hs1 : Reach d name conf hostConf s s1 := by
      have := Reach.create (Reach.refl s) (show
        (d.ContainerCreate conf hostConf name s).1.2 ≠ none by rw [hcreate]; simp)
      rw [hcreate] at this
      exact this
    cases h1 : Contains e "No such image" with
    | true =>
      obtain ⟨_, bfail, bok⟩ := CreateContainer_pull_branch d name conf hostConf s s1 res e
        hcreate h1
      obtain ⟨k1, k2, k3⟩ := PullImage_counts d conf.Image s1
      rcases hpl : (PullImage d conf.Image s1).1 with _ | pe
      · have hrec := Settles_image_present d name conf hostConf (PullImage d conf.Image s1).2.1
          (hP s1 hs1 hpl)
          (fun s3 h3 => hR s3 (Reach.trans (Reach.pull hs1 hpl) h3))
        exact Settles_of_retry d name conf hostConf s _ ⟨.ContainerCreate conf hostConf name, some e⟩ _
            2 2 0 1 3 1 0
          ⟨rfl, rfl, rfl⟩ ⟨k1, by omega, by omega⟩ (bok hpl) hrec (by omega)
      · refine Settles_mono d name conf hostConf s 1 1 1 0 3 3 1 1
          (Settles_of_direct d name conf hostConf s _ 1 1 0 (bfail pe hpl) ?_ ?_ ?_)
          (by omega) (by omega) (by omega) (by omega)
        · simp [List.countP_cons, Event.isCreate, k1]
        · simp [List.countP_cons, Event.isPull, k2]
        · simp [List.countP_cons, Event.isRemove, k3]
    | false =>
      cases h2 : Contains e "is already in use by container" with
      | false =>
        exact Settles_mono d name conf hostConf s 1 1 0 0 3 3 1 1
          (Settles_of_direct d name conf hostConf s _ 1 0 0
            (fun f => CreateContainer_create_other d name conf hostConf s s1 res e f hcreate
              h1 h2)
            (by simp [List.countP_cons, Event.isCreate])
            (by simp [List.countP_cons, Event.isPull])
            (by simp [List.countP_cons, Event.isRemove]))
          (by omega) (by omega) (by omega) (by omega)
      | true =>
        obtain ⟨_, bfail, bok⟩ := CreateContainer_name_in_use d name conf hostConf s s1 res e
          hcreate h1 h2
        obtain ⟨k1, k2, k3⟩ := RemoveContainer_counts d name s1
        rcases hrm : (RemoveContainer d name s1).1 with _ | re
        · have hrec := Settles_name_free d name conf hostConf (RemoveContainer d name s1).2.1
            (hR s1 hs1 hrm)
            (fun s3 h3 => hP s3 (Reach.trans (Reach.remove hs1 hrm) h3))
          exact Settles_of_retry d name conf hostConf s _ ⟨.ContainerCreate conf hostConf name, some e⟩ _
            2 2 1 0 3 0 1
            ⟨rfl, rfl, rfl⟩ ⟨k1, by omega, by omega⟩ (bok hrm) hrec (by omega)
        · exact Settles_mono d name conf hostConf s 1 1 0 1 3 3 1 1
            (Settles_of_direct d name conf hostConf s _ 1 0 1 (bfail re hrm)
              (by simp [List.countP_cons, Event.isCreate])
              (by simp [List.countP_cons, Event.isPull])
              (by simp [List.countP_cons, Event.isRemove]))
            (by omega) (by omega) (by omega) (by omega)

end Termination

/-! ## `RunContainer` and the registry check -/

/-- The image reference given to `RunContainer` has no effect on what it does (see C6):
the create call receives the caller's configuration. -/
theorem RunContainer_name_irrelevant {σ : Type} (d : Client σ) (fuel : Nat)
    (name name2 : imageName) (containerName : String) (conf : Config) (hostConf : HostConfig)
    (s : σ) :
    RunContainer d fuel name containerName conf hostConf s =
      RunContainer d fuel name2 containerName conf hostConf s := rfl

/-- A value that `json.Unmarshal` stored in a map never has the dynamic type `[]string`. -/
theorem assertStringSlice_mapIndex (results : List (String × JSON)) (key : String) :
    assertStringSlice (mapIndex results key) = none := by
  unfold mapIndex
  cases results.reverse.lookup key with
  | none => rfl
  | some j => cases j <;> rfl

/-- For every registry answer and every image reference, `CheckImagesExistInDockerRegistry`
never returns with a `nil` error (see C5): it returns an error or panics. -/
theorem CheckImagesExistInDockerRegistry_never_nil (EqualFold : String → String → Bool)
    (h : Http) (name : imageName) (b : Bool) :
    CheckImagesExistInDockerRegistry EqualFold h name ≠ .ok (b, none) := by
  unfold CheckImagesExistInDockerRegistry
  split
  · simp
  · simp only
    split
    · simp
    · split
      · simp
      · split
        · simp
        · split
          · simp
          · rw [assertStringSlice_mapIndex]
            simp

/-! ## Evaluations on the small engine -/

/-- C2, on an engine without a local `busybox` image that can pull it: the create fails
with "No such image: busybox", the pull succeeds, and the result is that of the retry,
the handle `id-web`. -/
theorem CreateContainer_no_such_image_witness :
    CreateContainer docker 2 "web" ⟨"busybox", []⟩ ⟨[]⟩ ⟨[], [], ["busybox"], [], []⟩ =
      some (("id-web", none), ⟨["busybox"], ["web"], ["busybox"], [], []⟩,
        [⟨.ContainerCreate ⟨"busybox", []⟩ ⟨[]⟩ "web", some "No such image: busybox"⟩,
         ⟨.ImagePull "busybox", none⟩, ⟨.ReadAll, none⟩, ⟨.Close, none⟩,
         ⟨.ContainerCreate ⟨"busybox", []⟩ ⟨[]⟩ "web", none⟩]) :=
  ((CreateContainer_no_such_image docker "web" ⟨"busybox", []⟩ ⟨[]⟩
    ⟨[], [], ["busybox"], [], []⟩ ⟨[], [], ["busybox"], [], []⟩ ⟨"", []⟩
    "No such image: busybox" (by decide) (by decide)).2.2 (by decide) 1).trans (by decide)

/-- C4, on the status sequence created, running, exited: `WaitContainerDone` returns
`nil` when the third query observes "exited", after two sleeps of one second. -/
theorem WaitContainerDone_success_witness :
    (WaitContainerDone EqualFoldASCII docker 4 "c1"
        ⟨[], [], [], [], [("created", none), ("running", none), ("exited", none)]⟩).1.caller =
      .returned none ∧
    (WaitContainerDone EqualFoldASCII docker 4 "c1"
        ⟨[], [], [], [], [("created", none), ("running", none), ("exited", none)]⟩).1.before =
      [⟨.ContainerInspect "c1", none⟩, ⟨.Sleep 1, none⟩,
       ⟨.ContainerInspect "c1", none⟩, ⟨.Sleep 1, none⟩,
       ⟨.ContainerInspect "c1", none⟩] ∧
    (WaitContainerDone EqualFoldASCII docker 4 "c1"
        ⟨[], [], [], [], [("created", none), ("running", none), ("exited", none)]⟩).1.after =
      [] :=
  have h := WaitContainerDone_success EqualFoldASCII docker "c1" 2
    ⟨[], [], [], [], [("created", none), ("running", none), ("exited", none)]⟩ 4
    (by decide) (by decide) (by decide) (by decide)
  ⟨h.1, h.2.1, h.2.2.2.1⟩

theorem docker_pull (ref : String) (s : Docker) :
    PullImage docker ref s =
      if ref ∈ s.remote then
        (none, { s with images := ref :: s.images },
          [⟨.ImagePull ref, none⟩, ⟨.ReadAll, none⟩, ⟨.Close, none⟩])
      else (some ("pull access denied for " ++ ref), s,
          [⟨.ImagePull ref, some ("pull access denied for " ++ ref)⟩]) := by
  by_cases h : ref ∈ s.remote <;> simp [PullImage, docker, h]

theorem docker_remove (id : String) (s : Docker) :
    RemoveContainer docker id s =
      if id ∈ s.busy then
        (some ("cannot remove container " ++ id), s,
          [⟨.ContainerRemove id true, some ("cannot remove container " ++ id)⟩])
      else (none, { s with names := s.names.filter (fun n => n != id) },
          [⟨.ContainerRemove id true, none⟩]) := by
  by_cases h : id ∈ s.busy <;> simp [RemoveContainer, docker, h]

theorem docker_create (conf : Config) (hostConf : HostConfig) (name : String) (s : Docker) :
    docker.ContainerCreate conf hostConf name s =
      if conf.Image ∈ s.images then
        if name ∈ s.names then
          ((⟨"", []⟩, some ("Conflict. The container name \"/" ++ name ++
            "\" is already in use by container")), s)
        else ((⟨"id-" ++ name, []⟩, none), { s with names := name :: s.names })
      else ((⟨"", []⟩, some ("No such image: " ++ conf.Image)), s) := rfl

/-- On the small engine, a run of `CreateContainer` never loses a local image. -/
theorem docker_reach_images (name : String) (conf : Config) (hostConf : HostConfig)
    (s s2 : Docker) (h : Reach docker name conf hostConf s s2) (x : String)
    (hx : x ∈ s.images) : x ∈ s2.images := by
  induction h with
  | refl => exact hx
  | @create s1 _ _ ih =>
    rw [docker_create]
    by_cases h1 : conf.Image ∈ s1.images <;> by_cases h2 : name ∈ s1.names <;> simp [h1, h2, ih]
  | @pull s1 _ _ ih =>
    rw [docker_pull]
    by_cases h1 : conf.Image ∈ s1.remote <;> simp [h1, ih]
  | @remove s1 _ _ ih =>
    rw [docker_remove]
    by_cases h1 : name ∈ s1.busy <;> simp [h1, ih]

/-- On the small engine, a run of `CreateContainer` never takes a name that was free. -/
theorem docker_reach_names (name : String) (conf : Config) (hostConf : HostConfig)
    (s s2 : Docker) (h : Reach docker name conf hostConf s s2)
    (hx : name ∉ s.names) : name ∉ s2.names := by
  induction h with
  | refl => exact hx
  | @create s1 _ hf ih =>
    rw [docker_create] at hf ⊢
    by_cases h1 : conf.Image ∈ s1.images <;> by_cases h2 : name ∈ s1.names <;> simp [h1, h2, ih] at hf ⊢
    all_goals exact absurd h2 ih
  | @pull s1 _ _ ih =>
    rw [docker_pull]
    by_cases h1 : conf.Image ∈ s1.remote <;> simp [h1, ih]
  | @remove s1 _ _ ih =>
    rw [docker_remove]
    by_cases h1 : name ∈ s1.busy <;> simp [h1, ih]

/-- C10, on the small engine, for the container `web` of image `busybox`, from a state
without the image and with the name in use: three creates, one pull and one removal give
the handle `id-web`. -/
theorem CreateContainer_terminates_witness :
    ∃ out, (∀ fuel, 3 ≤ fuel →
        CreateContainer docker fuel "web" ⟨"busybox", []⟩ ⟨[]⟩
          ⟨[], ["web"], ["busybox"], [], []⟩ = some out) ∧
      out.2.2.countP Event.isCreate ≤ 3 ∧ out.2.2.countP Event.isPull ≤ 1 ∧
      out.2.2.countP Event.isRemove ≤ 1 :=
  CreateContainer_terminates docker "web" ⟨"busybox", []⟩ ⟨[]⟩
    ⟨[], ["web"], ["busybox"], [], []⟩
    (by
      intro s1 _ hok s2 hreach e he
      have himg : "busybox" ∈ (PullImage docker "busybox" s1).2.1.images := by
        rw [docker_pull] at hok ⊢
        by_cases h1 : "busybox" ∈ s1.remote <;> simp [h1] at hok ⊢
      have h2 := docker_reach_images "web" ⟨"busybox", []⟩ ⟨[]⟩ _ s2 hreach "busybox" himg
      rw [docker_create] at he
      by_cases h3 : "web" ∈ s2.names
      · simp only [h2, h3, if_true, Option.some.injEq] at he
        subst he
        decide
      · simp [h2, h3] at he)
    (by
      intro s1 _ hok s2 hreach e he
      have hname : "web" ∉ (RemoveContainer docker "web" s1).2.1.names := by
        rw [docker_remove] at hok ⊢
        by_cases h1 : "web" ∈ s1.busy <;> simp [h1] at hok ⊢
      have h2 := docker_reach_names "web" ⟨"busybox", []⟩ ⟨[]⟩ _ s2 hreach hname
      rw [docker_create] at he
      by_cases h3 : "busybox" ∈ s2.images
      · simp [h2, h3] at he
      · simp only [h2, h3, if_false, Option.some.injEq] at he
        subst he
        decide)

/-- C8, on the small engine, for the handles `a`, `b`, `c` where `b` refuses removal:
`a` is removed, the removal of `b` fails and its error is the result, and no removal is
issued for `c`. -/
theorem RemoveContainers_spec_witness :
    RemoveContainers docker ["a", "b", "c"] ⟨[], ["a", "b", "c"], [], ["b"], []⟩ =
      (some "cannot remove container b", ⟨[], ["b", "c"], [], ["b"], []⟩,
        [⟨.ContainerRemove "a" true, none⟩,
         ⟨.ContainerRemove "b" true, some "cannot remove container b"⟩]) :=
  ((RemoveContainers_spec docker ["a", "b", "c"] ⟨[], ["a", "b", "c"], [], ["b"], []⟩).1
    1 "b" "cannot remove container b" (by decide)
    (by
      intro j u hj hu
      have hj0 : j = 0 := by omega
      subst hj0
      simp only [List.getElem?_cons_zero, Option.some.injEq] at hu
      subst hu
      decide)
    (by decide)).trans (by decide)

/-- C1 (the code departs from it): the engine holds the image `busybox` and a container
named `web` that refuses removal.  The create fails with the name conflict, the forced
removal of `web` fails with "cannot remove container web", and `CreateContainer`
returns the empty handle with a `nil` error instead of the removal's error. -/
theorem CreateContainer_removal_failure_returns_nil :
    CreateContainer docker 3 "web" ⟨"busybox", []⟩ ⟨[]⟩ ⟨["busybox"], ["web"], [], ["web"], []⟩ =
      some (("", none), ⟨["busybox"], ["web"], [], ["web"], []⟩,
        [⟨.ContainerCreate ⟨"busybox", []⟩ ⟨[]⟩ "web",
            some "Conflict. The container name \"/web\" is already in use by container"⟩,
         ⟨.ContainerRemove "web" true, some "cannot remove container web"⟩]) := by
  decide

/-- C6 (the code departs from it): `RunContainer` is called with the image reference
`reg/busybox` and a configuration whose image is `alpine`.  The one create call the
engine receives carries the image `alpine`, not `reg/busybox`. -/
theorem RunContainer_ignores_image_name :
    imageName.GetFullImageName ⟨"busybox", "reg"⟩ = "reg/busybox" ∧
    RunContainer docker 3 ⟨"busybox", "reg"⟩ "web" ⟨"alpine", []⟩ ⟨[]⟩
        ⟨["alpine"], [], [], [], []⟩ =
      some (("id-web", none), ⟨["alpine"], ["web"], [], [], []⟩,
        [⟨.ContainerCreate ⟨"alpine", []⟩ ⟨[]⟩ "web", none⟩,
         ⟨.ContainerStart "id-web", none⟩]) := by
  decide

/-- C3 (the code departs from it): the first status query answers `running`, the second
fails with "connection refused".  `WaitContainerDone` returns that error after two
queries and one sleep; the worker goroutine then goes on: it sleeps and issues a third
and a fourth status query. -/
theorem WaitContainerDone_polls_after_error :
    (WaitContainerDone EqualFoldASCII docker 3 "c1"
        ⟨[], [], [], [], [("running", none), ("", some "connection refused"),
          ("running", none), ("running", none)]⟩).1.caller =
      .returned (some "connection refused") ∧
    (WaitContainerDone EqualFoldASCII docker 3 "c1"
        ⟨[], [], [], [], [("running", none), ("", some "connection refused"),
          ("running", none), ("running", none)]⟩).1.before =
      [⟨.ContainerInspect "c1", none⟩, ⟨.Sleep 1, none⟩,
       ⟨.ContainerInspect "c1", some "connection refused"⟩] ∧
    (WaitContainerDone EqualFoldASCII docker 3 "c1"
        ⟨[], [], [], [], [("running", none), ("", some "connection refused"),
          ("running", none), ("running", none)]⟩).1.after =
      [⟨.Sleep 1, none⟩, ⟨.ContainerInspect "c1", none⟩,
       ⟨.Sleep 1, none⟩, ⟨.ContainerInspect "c1", none⟩] := by
  decide

/-- C5 (the code departs from it): the registry `localhost:5000` answers the tag query
for `busybox:latest` with an object whose `tags` field is the list `["latest"]`.  The
decoded field is a `[]interface{}`, the type assertion to `[]string` panics, and the
method returns neither `(true, nil)` nor `(false, nil)`. -/
theorem CheckImagesExistInDockerRegistry_panics :
    CheckImagesExistInDockerRegistry EqualFoldASCII
        (registry "\x7b\"name\":\"busybox\",\"tags\":[\"latest\"]\x7d"
          (.object [("name", .string "busybox"), ("tags", .array [.string "latest"])]))
        ⟨"busybox:latest", "localhost:5000"⟩ =
      .error "interface conversion: interface \x7b\x7d is not []string" := by
  rfl

end DockerClient
